import Mathlib

/-!
# Maze game: maze generation and the per-tick state machine

A shallow embedding of `mazegame_with_levels.cpp`.

* C++ `int` values are mathematical integers (`Int`); grid coordinates stay far
  below the machine range.  `/` and `%` on `int` are `Int.tdiv` and `Int.tmod`.
* `vector<string>` is `List (List Char)`, indexed `maze[y][x]`; the cell
  characters are `'|'` (Wall), `' '` (Open) and `'X'` (Exit).
* `rand()` is a stream `rnd : Nat → Nat` together with the number of calls made
  so far: the `k`-th call returns `rnd k`.
* the globals `playerX`, `playerY`, `maze`, `enemies` are passed explicitly.
* A read outside a vector is undefined behaviour in the source; the functions
  that read unguarded (`movePlayer`, `moveEnemies`, enemy spawning) return
  `Except.error Fault.outOfBounds` there.  Loops that are not bounded by a
  counter take fuel and return `Except.error Fault.outOfFuel` when it runs out.
-/

namespace MazeGame

/-- A grid position `(x, y)`. -/
abbrev Pos := Int × Int

/-- The maze grid, `vector<string>`: a list of rows. -/
abbrev Grid := List (List Char)

/-- Why a run of the model stops without a result. -/
inductive Fault where
  | outOfBounds : Fault
  | outOfFuel : Fault
  deriving DecidableEq

/-- `MOVES`: up, down, left, right as `(dx, dy)`. -/
def MOVES : List (Int × Int) := [(0, -1), (0, 1), (-1, 0), (1, 0)]

/-- The read `g[y][x]`; `none` outside the vectors. -/
def cellAt {α : Type} (g : List (List α)) (x y : Int) : Option α :=
  if 0 ≤ x ∧ 0 ≤ y then
    match g[y.toNat]? with
    | some row => row[x.toNat]?
    | none => none
  else none

/-- The write `g[y][x] = c`; the grid is unchanged when the index is outside. -/
def setCell {α : Type} (g : List (List α)) (x y : Int) (c : α) : List (List α) :=
  if 0 ≤ x ∧ 0 ≤ y then
    match g[y.toNat]? with
    | some row => g.set y.toNat (row.set x.toNat c)
    | none => g
  else g

/-- The index values of `for (i = start; i < n; i += 2)`, at most `fuel` of them. -/
def stepTwo (n : Int) : Nat → Int → List Int
  | 0, _ => []
  | fuel + 1, i => if i < n then i :: stepTwo n fuel (i + 2) else []

/-- The inner loop of `initializeMaze`: `for (x = 1; x < width; x += 2) maze[y][x] = ' '`. -/
def openRow (width : Int) (maze : Grid) (y : Int) : Grid :=
  (stepTwo width width.toNat 1).foldl (fun m x => setCell m x y ' ') maze

/-- `initializeMaze`: walls everywhere, then open cells at odd coordinates. -/
def initializeMaze (width height : Int) : Grid :=
  (stepTwo height height.toNat 1).foldl (openRow width)
    (List.replicate height.toNat (List.replicate width.toNat '|'))

/-- The local state of `generateMaze` during its `while` loop. -/
structure CarveState where
  maze : Grid
  visited : List (List Bool)
  pathStack : List Pos
  calls : Nat
  deriving DecidableEq

/-- The `neighbors` vector built for the room `(x, y)` on top of the stack. -/
def unvisitedNeighbors (visited : List (List Bool)) (width height x y : Int) : List Pos :=
  (MOVES.map (fun d => (x + d.1 * 2, y + d.2 * 2))).filter
    (fun p => decide (p.1 > 0 ∧ p.2 > 0 ∧ p.1 < width - 1 ∧ p.2 < height - 1
      ∧ cellAt visited p.1 p.2 = some false))

/-- One iteration of the `while (!pathStack.empty())` loop of `generateMaze`. -/
def carveStep (rnd : Nat → Nat) (width height : Int) (s : CarveState) : CarveState :=
  match s.pathStack with
  | [] => s
  | (x, y) :: rest =>
    let neighbors := unvisitedNeighbors s.visited width height x y
    if neighbors.isEmpty then
      { s with pathStack := rest }
    else
      let n := neighbors.getD (rnd s.calls % neighbors.length) (x, y)
      { maze := setCell s.maze ((x + n.1).tdiv 2) ((y + n.2).tdiv 2) ' '
        visited := setCell s.visited n.1 n.2 true
        pathStack := n :: (x, y) :: rest
        calls := s.calls + 1 }

/-- The `while (!pathStack.empty())` loop of `generateMaze`. -/
def carveLoop (rnd : Nat → Nat) (width height : Int) : Nat → CarveState → Except Fault CarveState
  | 0, s => if s.pathStack.isEmpty then .ok s else .error Fault.outOfFuel
  | fuel + 1, s =>
    if s.pathStack.isEmpty then .ok s
    else carveLoop rnd width height fuel (carveStep rnd width height s)

/-- Fuel given to the carving loop. -/
def carveFuel (width height : Int) : Nat := 2 * (width.toNat * height.toNat) + 1

/-- The state of `generateMaze` when its loop is entered. -/
def carveInit (calls : Nat) (maze : Grid) (width height : Int) : CarveState :=
  { maze := maze
    visited := setCell (List.replicate height.toNat (List.replicate width.toNat false)) 1 1 true
    pathStack := [(1, 1)]
    calls := calls }

/-- `generateMaze`: the carved maze and the number of `rand()` calls made so far. -/
def generateMaze (rnd : Nat → Nat) (calls : Nat) (maze : Grid) (width height : Int) :
    Except Fault (Grid × Nat) :=
  match carveLoop rnd width height (carveFuel width height) (carveInit calls maze width height) with
  | .ok s => .ok (setCell (setCell s.maze 1 1 ' ') (width - 2) (height - 2) 'X', s.calls)
  | .error e => .error e

/-- The cell `movePlayer` tries to enter, `none` for an input other than w/a/s/d. -/
def moveTarget (playerX playerY : Int) (input : Char) : Option Pos :=
  if input = 'w' then some (playerX, playerY - 1)
  else if input = 'a' then some (playerX - 1, playerY)
  else if input = 's' then some (playerX, playerY + 1)
  else if input = 'd' then some (playerX + 1, playerY)
  else none

/-- `movePlayer`: the player position afterwards (the source returns `false` always). -/
def movePlayer (maze : Grid) (playerX playerY : Int) (input : Char) : Except Fault Pos :=
  match moveTarget playerX playerY input with
  | none => .ok (playerX, playerY)
  | some (newX, newY) =>
    match cellAt maze newX newY with
    | none => .error Fault.outOfBounds
    | some c => if c ≠ '|' then .ok (newX, newY) else .ok (playerX, playerY)

/-- The loop of `attackEnemy` over the remaining directions. -/
def attackFrom (playerX playerY : Int) (enemies : List Pos) : List (Int × Int) → List Pos × Bool
  | [] => (enemies, false)
  | d :: ds =>
    if (playerX + d.1, playerY + d.2) ∈ enemies then
      (enemies.erase (playerX + d.1, playerY + d.2), true)
    else attackFrom playerX playerY enemies ds

/-- `attackEnemy`: the enemy list afterwards, and whether "Enemy defeated!" was printed
(`false`: "No enemy in range to attack!"). -/
def attackEnemy (playerX playerY : Int) (enemies : List Pos) : List Pos × Bool :=
  attackFrom playerX playerY enemies MOVES

/-- The `validMoves` vector of one enemy at `(ex, ey)`, over the remaining directions. -/
def validMoves (maze : Grid) (playerX playerY ex ey : Int) : List (Int × Int) → Except Fault (List Pos)
  | [] => .ok []
  | d :: ds =>
    match cellAt maze (ex + d.1) (ey + d.2) with
    | none => .error Fault.outOfBounds
    | some c =>
      match validMoves maze playerX playerY ex ey ds with
      | .error e => .error e
      | .ok rest =>
        if c ≠ '|' ∧ ¬ (ex + d.1 = playerX ∧ ey + d.2 = playerY) then .ok ((ex + d.1, ey + d.2) :: rest)
        else .ok rest

/-- `moveEnemies` from the enemy at the head of the list on: the enemy list afterwards,
the returned flag, and the number of `rand()` calls made so far. -/
def moveEnemies (rnd : Nat → Nat) (maze : Grid) (playerX playerY : Int) :
    Nat → List Pos → Except Fault (List Pos × Bool × Nat)
  | calls, [] => .ok ([], false, calls)
  | calls, (ex, ey) :: rest =>
    match validMoves maze playerX playerY ex ey MOVES with
    | .error e => .error e
    | .ok moves =>
      let e := if moves.isEmpty then (ex, ey) else moves.getD (rnd calls % moves.length) (ex, ey)
      let calls1 := if moves.isEmpty then calls else calls + 1
      if e.1 = playerX ∧ e.2 = playerY then .ok (e :: rest, true, calls1)
      else
        match moveEnemies rnd maze playerX playerY calls1 rest with
        | .error err => .error err
        | .ok (rest1, hit, calls2) => .ok (e :: rest1, hit, calls2)

/-- The `do ... while` loop that samples one enemy position in `main`. -/
def spawnEnemy (rnd : Nat → Nat) (maze : Grid) (width height playerX playerY : Int) :
    Nat → Nat → Except Fault (Pos × Nat)
  | 0, _ => .error Fault.outOfFuel
  | fuel + 1, calls =>
    let ex := (rnd calls : Int).tmod width
    let ey := (rnd (calls + 1) : Int).tmod height
    match cellAt maze ex ey with
    | none => .error Fault.outOfBounds
    | some c =>
      if c ≠ ' ' ∨ (ex = playerX ∧ ey = playerY) then
        spawnEnemy rnd maze width height playerX playerY fuel (calls + 2)
      else .ok ((ex, ey), calls + 2)

/-- The loop `for (int i = 0; i < level; i++)` of `main`, with `n` iterations left. -/
def spawnEnemies (rnd : Nat → Nat) (maze : Grid) (width height playerX playerY : Int) (fuel : Nat) :
    Nat → Nat → List Pos → Except Fault (List Pos × Nat)
  | 0, calls, enemies => .ok (enemies, calls)
  | n + 1, calls, enemies =>
    match spawnEnemy rnd maze width height playerX playerY fuel calls with
    | .error e => .error e
    | .ok (p, calls1) =>
      spawnEnemies rnd maze width height playerX playerY fuel n calls1 (enemies ++ [p])

/-- The globals after level setup. -/
structure Level where
  maze : Grid
  playerX : Int
  playerY : Int
  enemies : List Pos
  calls : Nat
  deriving DecidableEq

/-- `width` of `main` at a level. -/
def levelWidth (level : Int) : Int := 15 + level * 2

/-- `height` of `main` at a level. -/
def levelHeight (level : Int) : Int := 7 + level

/-- Level setup in `main` (lines 185-201): generate the maze, reset the player, spawn
`level` enemies; `fuel` bounds the attempts of each sampling loop. -/
def levelSetup (rnd : Nat → Nat) (fuel : Nat) (calls : Nat) (level : Int) : Except Fault Level :=
  match generateMaze rnd calls (initializeMaze (levelWidth level) (levelHeight level))
      (levelWidth level) (levelHeight level) with
  | .error e => .error e
  | .ok (maze, calls1) =>
    match spawnEnemies rnd maze (levelWidth level) (levelHeight level) 1 1 fuel level.toNat calls1 [] with
    | .error e => .error e
    | .ok (enemies, calls2) =>
      .ok { maze := maze, playerX := 1, playerY := 1, enemies := enemies, calls := calls2 }


/-- The globals of the program together with the locals `level` and `gameRunning` of
`main`. -/
structure Session where
  level : Int
  gameRunning : Bool
  maze : Grid
  playerX : Int
  playerY : Int
  enemies : List Pos
  calls : Nat
  deriving DecidableEq

/-- How one pass through the inner `while (true)` loop of `main` ends: the loop goes on
(`continue` or the end of the body), or it is left by the `break` after `'q'`, after
`level++`, or after `moveEnemies` returned `true`. -/
inductive Outcome where
  | playing : Outcome
  | quit : Outcome
  | levelComplete : Outcome
  | gameOver : Outcome
  deriving DecidableEq

/-- One pass through the inner `while (true)` loop of `main` (lines 203-237) on the
character `input` read by `getchar()`. -/
def playStep (rnd : Nat → Nat) (s : Session) (input : Char) : Except Fault (Session × Outcome) :=
  if input = 'q' then .ok ({ s with gameRunning := false }, Outcome.quit)
  else if input = 'f' then
    .ok ({ s with enemies := (attackEnemy s.playerX s.playerY s.enemies).1 }, Outcome.playing)
  else
    match movePlayer s.maze s.playerX s.playerY input with
    | .error e => .error e
    | .ok (x, y) =>
      match cellAt s.maze x y with
      | none => .error Fault.outOfBounds
      | some c =>
        if c = 'X' then
          .ok ({ s with playerX := x, playerY := y, level := s.level + 1 }, Outcome.levelComplete)
        else
          match moveEnemies rnd s.maze x y s.calls s.enemies with
          | .error e => .error e
          | .ok (enemies, hit, calls) =>
            if hit then
              .ok ({ s with playerX := x, playerY := y, enemies := enemies, calls := calls,
                            gameRunning := false }, Outcome.gameOver)
            else
              .ok ({ s with playerX := x, playerY := y, enemies := enemies, calls := calls },
                Outcome.playing)

/-- The state in which the inner loop of `main` is entered after level setup. -/
def startLevel (level : Int) (st : Level) : Session :=
  { level := level, gameRunning := true, maze := st.maze, playerX := st.playerX,
    playerY := st.playerY, enemies := st.enemies, calls := st.calls }

/-- The loops of `main` from a state of the inner loop on, reading the characters of
`inputs` one per pass; the result is the state when the game has ended or the input is
used up. -/
def runFrom (rnd : Nat → Nat) (fuel : Nat) : Session → List Char → Except Fault Session
  | s, [] => .ok s
  | s, input :: rest =>
    match playStep rnd s input with
    | .error e => .error e
    | .ok (s1, Outcome.playing) => runFrom rnd fuel s1 rest
    | .ok (s1, Outcome.levelComplete) =>
      match levelSetup rnd fuel s1.calls s1.level with
      | .error e => .error e
      | .ok st => runFrom rnd fuel (startLevel s1.level st) rest
    | .ok (s1, _) => .ok s1

/-- `main`: the game from level 1 on the characters `inputs`. -/
def main (rnd : Nat → Nat) (fuel : Nat) (inputs : List Char) : Except Fault Session :=
  match levelSetup rnd fuel 0 1 with
  | .error e => .error e
  | .ok st => runFrom rnd fuel (startLevel 1 st) inputs

/-! ## Specification vocabulary -/

/-- The grid has `h` rows of `w` cells each. -/
def Rect {α : Type} (g : List (List α)) (w h : Nat) : Prop :=
  g.length = h ∧ ∀ row ∈ g, row.length = w

/-- A room: both coordinates odd, strictly inside the border. -/
def isRoom (width height : Int) (p : Pos) : Prop :=
  p.1 % 2 = 1 ∧ p.2 % 2 = 1 ∧ 0 < p.1 ∧ p.1 < width - 1 ∧ 0 < p.2 ∧ p.2 < height - 1

instance decidableIsRoom (width height : Int) (p : Pos) : Decidable (isRoom width height p) := by
  unfold isRoom
  infer_instance

/-- All positions of a `width` by `height` grid. -/
def allCells (width height : Int) : List Pos :=
  ((List.range width.toNat) ×ˢ (List.range height.toNat)).map (fun p => ((p.1 : Int), (p.2 : Int)))

/-- The rooms of a `width` by `height` grid. -/
def rooms (width height : Int) : List Pos :=
  (allCells width height).filter (fun p => decide (isRoom width height p))

/-- A corridor cell of `g` that is Open: at least one even coordinate, and `' '`. -/
def isOpenCorridor (g : Grid) (p : Pos) : Prop :=
  (p.1 % 2 = 0 ∨ p.2 % 2 = 0) ∧ cellAt g p.1 p.2 = some ' '

instance decidableIsOpenCorridor (g : Grid) (p : Pos) : Decidable (isOpenCorridor g p) := by
  unfold isOpenCorridor
  infer_instance

/-- The number of Open corridor cells of `g`. -/
def corridorCount (g : Grid) (width height : Int) : Nat :=
  (allCells width height).countP (fun p => decide (isOpenCorridor g p))

/-- The number of cells marked in `visited`. -/
def visitedCount (visited : List (List Bool)) (width height : Int) : Nat :=
  (allCells width height).countP (fun p => decide (cellAt visited p.1 p.2 = some true))

/-- The number of cells not yet marked in `visited`. -/
def unvisitedCount (visited : List (List Bool)) (width height : Int) : Nat :=
  (allCells width height).countP (fun p => decide (cellAt visited p.1 p.2 = some false))

/-- Orthogonally adjacent positions. -/
def adjacent (a b : Pos) : Prop :=
  (a.1 = b.1 ∧ (a.2 = b.2 + 1 ∨ b.2 = a.2 + 1)) ∨ (a.2 = b.2 ∧ (a.1 = b.1 + 1 ∨ b.1 = a.1 + 1))

instance decidableAdjacent (a b : Pos) : Decidable (adjacent a b) := by
  unfold adjacent
  infer_instance

/-- `path` leads from `a` to `b` in orthogonal steps, over cells that satisfy `ok`. -/
def IsPath (ok : Pos → Prop) (a b : Pos) (path : List Pos) : Prop :=
  path.head? = some a ∧ path.getLast? = some b ∧ List.Chain' adjacent path ∧ ∀ c ∈ path, ok c

/-- Some path leads from `a` to `b` over cells that satisfy `ok`. -/
def Joined (ok : Pos → Prop) (a b : Pos) : Prop := ∃ path, IsPath ok a b path

/-- The cell is Open, `' '`. -/
def isOpen (g : Grid) (p : Pos) : Prop := cellAt g p.1 p.2 = some ' '

/-- The cell is inside the grid and not Wall. -/
def isFree (g : Grid) (p : Pos) : Prop := ∃ c, cellAt g p.1 p.2 = some c ∧ c ≠ '|'

/-- The corridor cell `(x, y)` lies between two rooms marked in `v`. -/
def corridorJoins (v : List (List Bool)) (x y : Int) : Prop :=
  (x % 2 = 0 ∧ y % 2 = 1 ∧ cellAt v (x - 1) y = some true ∧ cellAt v (x + 1) y = some true) ∨
  (x % 2 = 1 ∧ y % 2 = 0 ∧ cellAt v x (y - 1) = some true ∧ cellAt v x (y + 1) = some true)

/-- The invariant of the carving loop of `generateMaze` on `initializeMaze width height`. -/
structure CarveInv (width height : Int) (s : CarveState) : Prop where
  mazeRect : Rect s.maze width.toNat height.toNat
  visRect : Rect s.visited width.toNat height.toNat
  start : cellAt s.visited 1 1 = some true
  visRoom : ∀ x y, cellAt s.visited x y = some true → isRoom width height (x, y)
  stackVis : ∀ p ∈ s.pathStack, cellAt s.visited p.1 p.2 = some true
  closed : ∀ x y, cellAt s.visited x y = some true → (x, y) ∉ s.pathStack →
    ∀ d ∈ MOVES, isRoom width height (x + d.1 * 2, y + d.2 * 2) →
      cellAt s.visited (x + d.1 * 2) (y + d.2 * 2) = some true
  cells : ∀ x y, cellAt s.maze x y = cellAt (initializeMaze width height) x y ∨
    (cellAt s.maze x y = some ' ' ∧ corridorJoins s.visited x y)
  reach : ∀ x y, cellAt s.visited x y = some true → Joined (isOpen s.maze) (1, 1) (x, y)
  count : corridorCount s.maze width height + 1 = visitedCount s.visited width height


/-- The run stopped because a loop ran out of fuel. -/
def timedOut {α : Type} : Except Fault α → Bool
  | .error Fault.outOfFuel => true
  | _ => false

deriving instance DecidableEq for Except

/-- The four cells next to `(x, y)` in the order up, down, left, right. -/
def neighbourCells (x y : Int) : List Pos := [(x, y - 1), (x, y + 1), (x - 1, y), (x + 1, y)]

/-- The room pushed by the step from `s` to `s1` of the carving loop, if any. -/
def pushedBy (s s1 : CarveState) : List Pos :=
  if s.pathStack.length < s1.pathStack.length then s1.pathStack.take 1 else []

/-- The rooms pushed during the first `n` iterations of the carving loop from `s`, in order. -/
def carvePushes (rnd : Nat → Nat) (width height : Int) : Nat → CarveState → List Pos
  | 0, _ => []
  | n + 1, s =>
    pushedBy s (carveStep rnd width height s) ++
      carvePushes rnd width height n (carveStep rnd width height s)

/-- What holds of every state of the inner loop of `main`: the level is at least 1, the
grid has the dimensions of the level, the player is on a cell inside the grid that is not
Wall, and no enemy is on the player's cell. -/
def PlayInv (s : Session) : Prop :=
  1 ≤ s.level ∧ Rect s.maze (levelWidth s.level).toNat (levelHeight s.level).toNat ∧
    isFree s.maze (s.playerX, s.playerY) ∧ ∀ e ∈ s.enemies, e ≠ (s.playerX, s.playerY)

/-! ## Grid reads and writes -/

theorem cellAt_setCell {α : Type} (g : List (List α)) (x y x1 y1 : Int) (c : α) :
    cellAt (setCell g x y c) x1 y1 =
      if x1 = x ∧ y1 = y then (cellAt g x y).map (fun _ => c) else cellAt g x1 y1 := by
  unfold setCell
  by_cases hxy : 0 ≤ x ∧ 0 ≤ y
  · rw [if_pos hxy]
    cases hrow : g[y.toNat]? with
    | none =>
      simp only []
      split_ifs with h
      · obtain ⟨rfl, rfl⟩ := h
        simp [cellAt, hrow]
      · rfl
    | some row =>
      simp only []
      unfold cellAt
      by_cases h1 : 0 ≤ x1 ∧ 0 ≤ y1
      · rw [if_pos h1, if_pos h1, if_pos hxy, hrow]
        simp only [List.getElem?_set]
        by_cases hy : y.toNat = y1.toNat
        · have hy1 : y1 = y := by omega
          subst hy1
          have hlt : y1.toNat < g.length := by
            by_contra hcon
            rw [List.getElem?_eq_none (by omega)] at hrow
            cases hrow
          simp only [if_true, hlt, hrow]
          by_cases hx : x.toNat = x1.toNat
          · have hx1 : x1 = x := by omega
            subst hx1
            simp only [and_self, if_true, List.getElem?_set, if_true]
            by_cases hxl : x1.toNat < row.length
            · simp [hxl, List.getElem?_eq_getElem hxl]
            · simp [hxl, List.getElem?_eq_none (not_lt.mp hxl)]
          · have hx1 : ¬ (x1 = x) := by omega
            simp [hx1, List.getElem?_set, hx]
        · have hy1 : ¬ (y1 = y) := by omega
          simp [hy, hy1]
      · rw [if_neg h1, if_neg h1]
        have : ¬ (x1 = x ∧ y1 = y) := by
          rintro ⟨rfl, rfl⟩
          exact h1 hxy
        rw [if_neg this]
  · rw [if_neg hxy]
    split_ifs with h
    · obtain ⟨rfl, rfl⟩ := h
      simp [cellAt, hxy]
    · rfl

theorem rect_replicate {α : Type} (w h : Nat) (c : α) :
    Rect (List.replicate h (List.replicate w c)) w h := by
  refine ⟨List.length_replicate _ _, ?_⟩
  intro row hrow
  rw [List.eq_of_mem_replicate hrow]
  exact List.length_replicate _ _

theorem rect_setCell {α : Type} {g : List (List α)} {w h : Nat} (hg : Rect g w h)
    (x y : Int) (c : α) : Rect (setCell g x y c) w h := by
  unfold setCell
  split_ifs with hxy
  · cases hrow : g[y.toNat]? with
    | none => exact hg
    | some row =>
      simp only []
      refine ⟨by rw [List.length_set]; exact hg.1, ?_⟩
      intro r hr
      rcases List.mem_or_eq_of_mem_set hr with h1 | h1
      · exact hg.2 r h1
      · rw [h1, List.length_set]
        exact hg.2 row (List.getElem?_mem hrow)
  · exact hg

theorem cellAt_isSome_of_rect {α : Type} {g : List (List α)} {w h : Nat} (hg : Rect g w h)
    (x y : Int) : (cellAt g x y).isSome = true ↔ (0 ≤ x ∧ x < w ∧ 0 ≤ y ∧ y < h) := by
  unfold cellAt
  by_cases hxy : 0 ≤ x ∧ 0 ≤ y
  · rw [if_pos hxy]
    by_cases hy : y.toNat < g.length
    · have hrow : g[y.toNat]? = some g[y.toNat] := List.getElem?_eq_getElem hy
      rw [hrow]
      simp only []
      have hlen : (g[y.toNat]).length = w := hg.2 _ (List.getElem_mem hy)
      have h1 := hg.1
      by_cases hx : x.toNat < (g[y.toNat]).length
      · rw [List.getElem?_eq_getElem hx]
        simp only [Option.isSome_some, true_iff]
        omega
      · rw [List.getElem?_eq_none (not_lt.mp hx)]
        simp only [Option.isSome_none, Bool.false_eq_true, false_iff]
        omega
    · rw [List.getElem?_eq_none (not_lt.mp hy)]
      have h1 := hg.1
      simp only [Option.isSome_none, Bool.false_eq_true, false_iff]
      omega
  · rw [if_neg hxy]
    simp only [Option.isSome_none, Bool.false_eq_true, false_iff]
    omega

theorem cellAt_replicate {α : Type} (w h : Nat) (c : α) (x y : Int) :
    cellAt (List.replicate h (List.replicate w c)) x y =
      if 0 ≤ x ∧ x < w ∧ 0 ≤ y ∧ y < h then some c else none := by
  unfold cellAt
  by_cases hxy : 0 ≤ x ∧ 0 ≤ y
  · rw [if_pos hxy, List.getElem?_replicate]
    by_cases hy : y.toNat < h
    · rw [if_pos hy]
      simp only [List.getElem?_replicate]
      by_cases hx : x.toNat < w
      · rw [if_pos hx, if_pos (by omega)]
      · rw [if_neg hx, if_neg (by omega)]
    · rw [if_neg hy, if_neg (by omega)]
  · rw [if_neg hxy, if_neg (by omega)]

theorem mem_stepTwo (n : Int) : ∀ (fuel : Nat) (i j : Int), n - i ≤ fuel →
    (j ∈ stepTwo n fuel i ↔ (i ≤ j ∧ j < n ∧ (j - i) % 2 = 0)) := by
  intro fuel
  induction fuel with
  | zero =>
    intro i j h
    simp only [stepTwo, List.not_mem_nil, false_iff]
    omega
  | succ k ih =>
    intro i j h
    unfold stepTwo
    split_ifs with hlt
    · rw [List.mem_cons, ih (i + 2) j (by omega)]
      omega
    · simp only [List.not_mem_nil, false_iff]
      omega

theorem cellAt_foldl_setCell {α : Type} (c : α) (y : Int) (xs : List Int) :
    ∀ (g : List (List α)) (x1 y1 : Int),
      cellAt (xs.foldl (fun m x => setCell m x y c) g) x1 y1 =
        if y1 = y ∧ x1 ∈ xs then (cellAt g x1 y1).map (fun _ => c) else cellAt g x1 y1 := by
  induction xs with
  | nil => intro g x1 y1; simp
  | cons a t ih =>
    intro g x1 y1
    rw [List.foldl_cons, ih, cellAt_setCell]
    by_cases hy : y1 = y
    · subst hy
      by_cases ha : x1 = a
      · subst ha
        by_cases ht : x1 ∈ t
        · cases cellAt g x1 y1 <;> simp [ht]
        · simp [ht]
      · by_cases ht : x1 ∈ t
        · simp [ha, ht]
        · simp [ha, ht]
    · simp [hy]

theorem cellAt_openRow (width : Int) (g : Grid) (y x1 y1 : Int) :
    cellAt (openRow width g y) x1 y1 =
      if y1 = y ∧ 1 ≤ x1 ∧ x1 < width ∧ x1 % 2 = 1 then (cellAt g x1 y1).map (fun _ => ' ')
      else cellAt g x1 y1 := by
  unfold openRow
  rw [cellAt_foldl_setCell]
  have hmem : x1 ∈ stepTwo width width.toNat 1 ↔ (1 ≤ x1 ∧ x1 < width ∧ x1 % 2 = 1) := by
    rw [mem_stepTwo width _ 1 x1 (by omega)]
    omega
  simp only [hmem]

theorem cellAt_foldl_openRow (width : Int) (ys : List Int) :
    ∀ (g : Grid) (x1 y1 : Int),
      cellAt (ys.foldl (openRow width) g) x1 y1 =
        if y1 ∈ ys ∧ 1 ≤ x1 ∧ x1 < width ∧ x1 % 2 = 1 then (cellAt g x1 y1).map (fun _ => ' ')
        else cellAt g x1 y1 := by
  induction ys with
  | nil => intro g x1 y1; simp
  | cons a t ih =>
    intro g x1 y1
    rw [List.foldl_cons, ih, cellAt_openRow]
    by_cases hx : 1 ≤ x1 ∧ x1 < width ∧ x1 % 2 = 1
    · by_cases ha : y1 = a
      · subst ha
        by_cases ht : y1 ∈ t
        · cases cellAt g x1 y1 <;> simp [hx, ht]
        · simp [hx, ht]
      · by_cases ht : y1 ∈ t
        · simp [hx, ha, ht]
        · simp [hx, ha, ht]
    · have h1 : ¬ (y1 ∈ t ∧ 1 ≤ x1 ∧ x1 < width ∧ x1 % 2 = 1) := fun h => hx h.2
      have h2 : ¬ (y1 = a ∧ 1 ≤ x1 ∧ x1 < width ∧ x1 % 2 = 1) := fun h => hx h.2
      have h3 : ¬ (y1 ∈ a :: t ∧ 1 ≤ x1 ∧ x1 < width ∧ x1 % 2 = 1) := fun h => hx h.2
      rw [if_neg h1, if_neg h2, if_neg h3]

/-- Every cell of `initializeMaze width height`: inside the vectors the cell is Open
when both coordinates are odd and Wall otherwise. -/
theorem cellAt_initializeMaze (width height x y : Int) :
    cellAt (initializeMaze width height) x y =
      if 0 ≤ x ∧ x < width ∧ 0 ≤ y ∧ y < height then
        some (if x % 2 = 1 ∧ y % 2 = 1 then ' ' else '|')
      else none := by
  unfold initializeMaze
  have hmem : y ∈ stepTwo height height.toNat 1 ↔ (1 ≤ y ∧ y < height ∧ y % 2 = 1) := by
    rw [mem_stepTwo height _ 1 y (by omega)]
    omega
  rw [cellAt_foldl_openRow, cellAt_replicate]
  simp only [hmem]
  by_cases hin : 0 ≤ x ∧ x < width ∧ 0 ≤ y ∧ y < height
  · have hin2 : 0 ≤ x ∧ x < (width.toNat : Int) ∧ 0 ≤ y ∧ y < (height.toNat : Int) := by omega
    rw [if_pos hin, if_pos hin2]
    by_cases hodd : x % 2 = 1 ∧ y % 2 = 1
    · rw [if_pos hodd, if_pos (by omega)]
      rfl
    · rw [if_neg hodd, if_neg (by omega)]
  · have hin2 : ¬ (0 ≤ x ∧ x < (width.toNat : Int) ∧ 0 ≤ y ∧ y < (height.toNat : Int)) := by omega
    rw [if_neg hin, if_neg hin2]
    split_ifs <;> rfl

theorem rect_foldl_setCell {α : Type} (c : α) (y : Int) (w h : Nat) (xs : List Int) :
    ∀ (g : List (List α)), Rect g w h → Rect (xs.foldl (fun m x => setCell m x y c) g) w h := by
  induction xs with
  | nil => intro g hg; exact hg
  | cons a t ih => intro g hg; exact ih _ (rect_setCell hg a y c)

theorem rect_foldl_openRow (width : Int) (w h : Nat) (ys : List Int) :
    ∀ (g : Grid), Rect g w h → Rect (ys.foldl (openRow width) g) w h := by
  induction ys with
  | nil => intro g hg; exact hg
  | cons a t ih => intro g hg; exact ih _ (rect_foldl_setCell _ _ _ _ _ g hg)

theorem rect_initializeMaze (width height : Int) :
    Rect (initializeMaze width height) width.toNat height.toNat :=
  rect_foldl_openRow _ _ _ _ _ (rect_replicate _ _ _)

/-! ## Paths and counting -/

theorem joined_refl {ok : Pos → Prop} {a : Pos} (h : ok a) : Joined ok a a := by
  refine ⟨[a], rfl, rfl, List.chain'_singleton a, ?_⟩
  intro c hc
  rw [List.mem_singleton] at hc
  rw [hc]
  exact h

theorem joined_snoc {ok : Pos → Prop} {a b c : Pos} (h : Joined ok a b) (hadj : adjacent b c)
    (hc : ok c) : Joined ok a c := by
  obtain ⟨path, hhead, hlast, hchain, hok⟩ := h
  refine ⟨path ++ [c], ?_, ?_, ?_, ?_⟩
  · cases path with
    | nil => simp at hhead
    | cons p ps => simpa using hhead
  · simp
  · refine List.Chain'.append hchain (List.chain'_singleton c) ?_
    intro x hx y hy
    rw [hlast] at hx
    simp only [Option.mem_def, Option.some.injEq] at hx
    simp only [List.head?_cons, Option.mem_def, Option.some.injEq] at hy
    rw [← hx, ← hy]
    exact hadj
  · intro d hd
    rw [List.mem_append, List.mem_singleton] at hd
    rcases hd with hd | hd
    · exact hok d hd
    · rw [hd]; exact hc

theorem joined_mono {ok ok2 : Pos → Prop} {a b : Pos} (hsub : ∀ c, ok c → ok2 c)
    (h : Joined ok a b) : Joined ok2 a b := by
  obtain ⟨path, hhead, hlast, hchain, hok⟩ := h
  exact ⟨path, hhead, hlast, hchain, fun c hc => hsub c (hok c hc)⟩

theorem countP_update {α : Type} [DecidableEq α] (p q : α → Bool) (a : α) :
    ∀ (l : List α), l.Nodup → a ∈ l → p a = false → q a = true →
      (∀ b ∈ l, b ≠ a → q b = p b) → l.countP q = l.countP p + 1 := by
  intro l
  induction l with
  | nil => intro _ ha; simp at ha
  | cons b t ih =>
    intro hnd ha hpa hqa hrest
    rw [List.nodup_cons] at hnd
    rw [List.countP_cons, List.countP_cons]
    by_cases hba : b = a
    · subst hba
      have hsame : t.countP q = t.countP p := by
        apply List.countP_congr
        intro c hc
        have hne : c ≠ b := fun h => hnd.1 (h ▸ hc)
        rw [hrest c (List.mem_cons_of_mem _ hc) hne]
      rw [hsame, hpa, hqa]
      simp
    · have hat : a ∈ t := by
        rcases List.mem_cons.mp ha with h | h
        · exact absurd h.symm hba
        · exact h
      rw [ih hnd.2 hat hpa hqa (fun c hc hne => hrest c (List.mem_cons_of_mem _ hc) hne),
        hrest b (List.mem_cons_self _ _) hba]
      omega

theorem countP_update_down {α : Type} [DecidableEq α] (p q : α → Bool) (a : α)
    (l : List α) (hnd : l.Nodup) (ha : a ∈ l) (hpa : p a = true) (hqa : q a = false)
    (hrest : ∀ b ∈ l, b ≠ a → q b = p b) : l.countP q + 1 = l.countP p :=
  (countP_update q p a l hnd ha hqa hpa (fun b hb hne => (hrest b hb hne).symm)).symm

theorem mem_allCells (width height : Int) (p : Pos) :
    p ∈ allCells width height ↔ (0 ≤ p.1 ∧ p.1 < width ∧ 0 ≤ p.2 ∧ p.2 < height) := by
  unfold allCells
  rw [List.mem_map]
  constructor
  · rintro ⟨⟨a, b⟩, hab, rfl⟩
    rw [List.mem_product, List.mem_range, List.mem_range] at hab
    simp only
    omega
  · intro h
    refine ⟨(p.1.toNat, p.2.toNat), ?_, ?_⟩
    · rw [List.mem_product, List.mem_range, List.mem_range]
      omega
    · apply Prod.ext
      · exact Int.toNat_of_nonneg h.1
      · exact Int.toNat_of_nonneg h.2.2.1

theorem nodup_allCells (width height : Int) : (allCells width height).Nodup := by
  unfold allCells
  apply List.Nodup.map
  · intro a b hab
    simp only [Prod.mk.injEq] at hab
    apply Prod.ext
    · omega
    · omega
  · exact List.Nodup.product (List.nodup_range _) (List.nodup_range _)

theorem length_allCells (width height : Int) :
    (allCells width height).length = width.toNat * height.toNat := by
  unfold allCells
  rw [List.length_map, List.length_product, List.length_range, List.length_range]

/-! ## The carving loop of generateMaze -/

theorem mem_MOVES (d : Int × Int) :
    d ∈ MOVES ↔ d = (0, -1) ∨ d = (0, 1) ∨ d = (-1, 0) ∨ d = (1, 0) := by
  simp [MOVES]

theorem mem_unvisitedNeighbors (visited : List (List Bool)) (width height x y : Int) (n : Pos) :
    n ∈ unvisitedNeighbors visited width height x y ↔
      ((∃ d ∈ MOVES, n = (x + d.1 * 2, y + d.2 * 2)) ∧ n.1 > 0 ∧ n.2 > 0 ∧ n.1 < width - 1
        ∧ n.2 < height - 1 ∧ cellAt visited n.1 n.2 = some false) := by
  unfold unvisitedNeighbors
  rw [List.mem_filter, List.mem_map, decide_eq_true_iff]
  constructor
  · rintro ⟨⟨d, hd, rfl⟩, h⟩
    exact ⟨⟨d, hd, rfl⟩, h⟩
  · rintro ⟨⟨d, hd, rfl⟩, h⟩
    exact ⟨⟨d, hd, rfl⟩, h⟩

theorem carveStep_cases (rnd : Nat → Nat) (width height : Int) (s : CarveState) (x y : Int)
    (rest : List Pos) (hs : s.pathStack = (x, y) :: rest) :
    (unvisitedNeighbors s.visited width height x y = [] ∧
      carveStep rnd width height s = { s with pathStack := rest }) ∨
    (∃ n ∈ unvisitedNeighbors s.visited width height x y,
      carveStep rnd width height s =
        { maze := setCell s.maze ((x + n.1).tdiv 2) ((y + n.2).tdiv 2) ' '
          visited := setCell s.visited n.1 n.2 true
          pathStack := n :: (x, y) :: rest
          calls := s.calls + 1 }) := by
  unfold carveStep
  rw [hs]
  simp only []
  cases hn : unvisitedNeighbors s.visited width height x y with
  | nil => left; simp
  | cons a t =>
    right
    have hlt : rnd s.calls % (a :: t).length < (a :: t).length :=
      Nat.mod_lt _ (by simp)
    refine ⟨(a :: t).getD (rnd s.calls % (a :: t).length) (x, y), ?_, ?_⟩
    · rw [List.getD_eq_getElem _ _ hlt]
      exact List.getElem_mem hlt
    · simp

theorem cellAt_some_of_rect {α : Type} {g : List (List α)} {w h : Nat} (hg : Rect g w h)
    (x y : Int) (hx0 : 0 ≤ x) (hx1 : x < w) (hy0 : 0 ≤ y) (hy1 : y < h) :
    ∃ c, cellAt g x y = some c :=
  Option.isSome_iff_exists.mp ((cellAt_isSome_of_rect hg x y).mpr ⟨hx0, hx1, hy0, hy1⟩)

theorem cellAt_setCell_same {α : Type} {g : List (List α)} {w h : Nat} (hg : Rect g w h)
    (x y : Int) (c : α) (hx0 : 0 ≤ x) (hx1 : x < w) (hy0 : 0 ≤ y) (hy1 : y < h) :
    cellAt (setCell g x y c) x y = some c := by
  obtain ⟨c0, hc0⟩ := cellAt_some_of_rect hg x y hx0 hx1 hy0 hy1
  rw [cellAt_setCell, if_pos ⟨rfl, rfl⟩, hc0]
  rfl

theorem cellAt_setCell_ne {α : Type} (g : List (List α)) (x y x1 y1 : Int) (c : α)
    (hne : ¬ (x1 = x ∧ y1 = y)) : cellAt (setCell g x y c) x1 y1 = cellAt g x1 y1 := by
  rw [cellAt_setCell, if_neg hne]

theorem cellAt_setCell_keep {α : Type} (g : List (List α)) (x y x1 y1 : Int) (c : α)
    (h : cellAt g x1 y1 = some c) : cellAt (setCell g x y c) x1 y1 = some c := by
  rw [cellAt_setCell]
  split_ifs with heq
  · obtain ⟨rfl, rfl⟩ := heq
    rw [h]
    rfl
  · exact h

theorem corridorJoins_mono (v : List (List Bool)) (a b x y : Int) (h : corridorJoins v x y) :
    corridorJoins (setCell v a b true) x y := by
  rcases h with ⟨h1, h2, h3, h4⟩ | ⟨h1, h2, h3, h4⟩
  · exact Or.inl ⟨h1, h2, cellAt_setCell_keep _ _ _ _ _ _ h3, cellAt_setCell_keep _ _ _ _ _ _ h4⟩
  · exact Or.inr ⟨h1, h2, cellAt_setCell_keep _ _ _ _ _ _ h3, cellAt_setCell_keep _ _ _ _ _ _ h4⟩

theorem carveInv_pop (width height : Int) (s : CarveState) (x y : Int) (rest : List Pos)
    (hinv : CarveInv width height s) (hs : s.pathStack = (x, y) :: rest)
    (hnil : unvisitedNeighbors s.visited width height x y = []) :
    CarveInv width height { s with pathStack := rest } := by
  refine ⟨hinv.mazeRect, hinv.visRect, hinv.start, hinv.visRoom, ?_, ?_, hinv.cells, hinv.reach,
    hinv.count⟩
  · intro p hp
    exact hinv.stackVis p (by rw [hs]; exact List.mem_cons_of_mem _ hp)
  · intro a b hab hnot d hd hroom
    by_cases hxy : (a, b) = (x, y)
    · obtain ⟨rfl, rfl⟩ := Prod.mk.inj hxy
      obtain ⟨_, _, h3, h4, h5, h6⟩ := hroom
      simp only at h3 h4 h5 h6
      obtain ⟨c, hc⟩ := cellAt_some_of_rect hinv.visRect (a + d.1 * 2) (b + d.2 * 2)
        (by omega) (by omega) (by omega) (by omega)
      cases c with
      | true => exact hc
      | false =>
        have hmem : (a + d.1 * 2, b + d.2 * 2) ∈ unvisitedNeighbors s.visited width height a b := by
          rw [mem_unvisitedNeighbors]
          exact ⟨⟨d, hd, rfl⟩, h3, h5, h4, h6, hc⟩
        rw [hnil] at hmem
        simp at hmem
    · apply hinv.closed a b hab _ d hd hroom
      rw [hs]
      simp only [List.mem_cons, not_or]
      exact ⟨hxy, hnot⟩

theorem isOpen_setCell (g : Grid) (x y : Int) (p : Pos) (h : isOpen g p) :
    isOpen (setCell g x y ' ') p :=
  cellAt_setCell_keep g x y p.1 p.2 ' ' h

theorem carveInv_push (width height : Int) (s : CarveState) (x y : Int) (rest : List Pos)
    (d : Int × Int) (hinv : CarveInv width height s) (hs : s.pathStack = (x, y) :: rest)
    (hd : d ∈ MOVES) (hx0 : x + d.1 * 2 > 0) (hy0 : y + d.2 * 2 > 0)
    (hx1 : x + d.1 * 2 < width - 1) (hy1 : y + d.2 * 2 < height - 1)
    (hfalse : cellAt s.visited (x + d.1 * 2) (y + d.2 * 2) = some false) :
    CarveInv width height
      { maze := setCell s.maze (x + d.1) (y + d.2) ' '
        visited := setCell s.visited (x + d.1 * 2) (y + d.2 * 2) true
        pathStack := (x + d.1 * 2, y + d.2 * 2) :: (x, y) :: rest
        calls := s.calls + 1 } := by
  have hxyv : cellAt s.visited x y = some true :=
    hinv.stackVis (x, y) (by rw [hs]; exact List.mem_cons_self _ _)
  obtain ⟨hxo, hyo, hxa, hxb, hya, hyb⟩ := hinv.visRoom x y hxyv
  simp only at hxo hyo hxa hxb hya hyb
  have hdc : (d.1 = 0 ∧ (d.2 = -1 ∨ d.2 = 1)) ∨ (d.2 = 0 ∧ (d.1 = -1 ∨ d.1 = 1)) := by
    rcases (mem_MOVES d).mp hd with h | h | h | h <;> rw [h] <;> simp
  have hnv : cellAt (setCell s.visited (x + d.1 * 2) (y + d.2 * 2) true) (x + d.1 * 2)
      (y + d.2 * 2) = some true :=
    cellAt_setCell_same hinv.visRect _ _ _ (by omega) (by omega) (by omega) (by omega)
  have hmid : cellAt (setCell s.maze (x + d.1) (y + d.2) ' ') (x + d.1) (y + d.2) = some ' ' :=
    cellAt_setCell_same hinv.mazeRect _ _ _ (by omega) (by omega) (by omega) (by omega)
  have hkey : ∀ a b, ((a = x ∧ b = y) ∨ (a = x + d.1 * 2 ∧ b = y + d.2 * 2)) →
      cellAt (setCell s.visited (x + d.1 * 2) (y + d.2 * 2) true) a b = some true := by
    rintro a b (⟨rfl, rfl⟩ | ⟨rfl, rfl⟩)
    · exact cellAt_setCell_keep _ _ _ _ _ _ hxyv
    · exact hnv
  have hnopen : cellAt s.maze (x + d.1 * 2) (y + d.2 * 2) = some ' ' := by
    rcases hinv.cells (x + d.1 * 2) (y + d.2 * 2) with h | h
    · rw [h, cellAt_initializeMaze, if_pos (by omega), if_pos (by omega)]
    · exact h.1
  have hmidwall : ¬ isOpenCorridor s.maze (x + d.1, y + d.2) := by
    rintro ⟨_, hopen⟩
    simp only at hopen
    rcases hinv.cells (x + d.1) (y + d.2) with h | h
    · rw [h, cellAt_initializeMaze, if_pos (by omega), if_neg (by omega)] at hopen
      simp at hopen
    · have hf : ∀ a b, a = x + d.1 * 2 → b = y + d.2 * 2 → cellAt s.visited a b = some true →
          False := by
        intro a b ha hb hab
        rw [ha, hb, hfalse] at hab
        simp at hab
      rcases h.2 with ⟨h1, h2, h3, h4⟩ | ⟨h1, h2, h3, h4⟩
      · have e1 : d.1 = -1 ∨ d.1 = 1 := by omega
        rcases e1 with e1 | e1
        · exact hf _ _ (by omega) (by omega) h3
        · exact hf _ _ (by omega) (by omega) h4
      · have e1 : d.2 = -1 ∨ d.2 = 1 := by omega
        rcases e1 with e1 | e1
        · exact hf _ _ (by omega) (by omega) h3
        · exact hf _ _ (by omega) (by omega) h4
  refine ⟨rect_setCell hinv.mazeRect _ _ _, rect_setCell hinv.visRect _ _ _,
    cellAt_setCell_keep _ _ _ _ _ _ hinv.start, ?_, ?_, ?_, ?_, ?_, ?_⟩
  · -- visRoom
    intro a b hab
    simp only at hab
    rw [cellAt_setCell] at hab
    split_ifs at hab with heq
    · obtain ⟨rfl, rfl⟩ := heq
      exact ⟨by simp only; omega, by simp only; omega, by simp only; omega, by simp only; omega,
        by simp only; omega, by simp only; omega⟩
    · exact hinv.visRoom a b hab
  · -- stackVis
    intro p hp
    simp only [List.mem_cons] at hp
    rcases hp with rfl | rfl | hp
    · exact hnv
    · exact hkey _ _ (Or.inl ⟨rfl, rfl⟩)
    · exact cellAt_setCell_keep _ _ _ _ _ _
        (hinv.stackVis p (by rw [hs]; exact List.mem_cons_of_mem _ hp))
  · -- closed
    intro a b hab hnot e he hroom
    simp only [List.mem_cons, not_or] at hnot
    simp only at hab
    rw [cellAt_setCell, if_neg (fun h => hnot.1 (Prod.ext h.1 h.2))] at hab
    apply cellAt_setCell_keep
    apply hinv.closed a b hab _ e he hroom
    rw [hs]
    simp only [List.mem_cons, not_or]
    exact hnot.2
  · -- cells
    intro a b
    simp only
    by_cases heq : a = x + d.1 ∧ b = y + d.2
    · obtain ⟨rfl, rfl⟩ := heq
      right
      refine ⟨hmid, ?_⟩
      rcases hdc with ⟨e1, e2⟩ | ⟨e1, e2⟩
      · right
        refine ⟨by omega, by omega, hkey _ _ (by omega), hkey _ _ (by omega)⟩
      · left
        refine ⟨by omega, by omega, hkey _ _ (by omega), hkey _ _ (by omega)⟩
    · rw [cellAt_setCell_ne _ _ _ _ _ _ heq]
      rcases hinv.cells a b with h | h
      · exact Or.inl h
      · exact Or.inr ⟨h.1, corridorJoins_mono _ _ _ _ _ h.2⟩
  · -- reach
    intro a b hab
    simp only at hab ⊢
    rw [cellAt_setCell] at hab
    split_ifs at hab with heq
    · obtain ⟨rfl, rfl⟩ := heq
      have h1 : Joined (isOpen (setCell s.maze (x + d.1) (y + d.2) ' ')) (1, 1) (x, y) :=
        joined_mono (fun c hc => isOpen_setCell _ _ _ c hc) (hinv.reach x y hxyv)
      have h2 : Joined (isOpen (setCell s.maze (x + d.1) (y + d.2) ' ')) (1, 1)
          (x + d.1, y + d.2) := by
        refine joined_snoc h1 ?_ hmid
        unfold adjacent
        simp only
        omega
      refine joined_snoc h2 ?_ ?_
      · unfold adjacent
        simp only
        omega
      · exact isOpen_setCell _ _ _ _ hnopen
    · exact joined_mono (fun c hc => isOpen_setCell _ _ _ c hc) (hinv.reach a b hab)
  · -- count
    simp only
    have hc1 : corridorCount (setCell s.maze (x + d.1) (y + d.2) ' ') width height =
        corridorCount s.maze width height + 1 := by
      unfold corridorCount
      apply countP_update _ _ (x + d.1, y + d.2) _ (nodup_allCells _ _)
      · rw [mem_allCells]
        simp only
        omega
      · exact decide_eq_false hmidwall
      · apply decide_eq_true
        refine ⟨?_, hmid⟩
        simp only
        omega
      · intro p _ hne
        have e := cellAt_setCell_ne s.maze (x + d.1) (y + d.2) p.1 p.2 ' '
          (fun h => hne (Prod.ext h.1 h.2))
        simp only [isOpenCorridor, e]
    have hc2 : visitedCount (setCell s.visited (x + d.1 * 2) (y + d.2 * 2) true) width height =
        visitedCount s.visited width height + 1 := by
      unfold visitedCount
      apply countP_update _ _ (x + d.1 * 2, y + d.2 * 2) _ (nodup_allCells _ _)
      · rw [mem_allCells]
        simp only
        omega
      · apply decide_eq_false
        simp only
        rw [hfalse]
        simp
      · exact decide_eq_true hnv
      · intro p _ hne
        have e := cellAt_setCell_ne s.visited (x + d.1 * 2) (y + d.2 * 2) p.1 p.2 true
          (fun h => hne (Prod.ext h.1 h.2))
        simp only [e]
    rw [hc1, hc2, hinv.count]

theorem carveInv_step (rnd : Nat → Nat) (width height : Int) (s : CarveState)
    (hinv : CarveInv width height s) : CarveInv width height (carveStep rnd width height s) := by
  cases hs : s.pathStack with
  | nil =>
    have : carveStep rnd width height s = s := by
      unfold carveStep
      rw [hs]
    rw [this]
    exact hinv
  | cons p rest =>
    obtain ⟨x, y⟩ := p
    rcases carveStep_cases rnd width height s x y rest hs with ⟨hnil, heq⟩ | ⟨n, hn, heq⟩
    · rw [heq]
      exact carveInv_pop width height s x y rest hinv hs hnil
    · rw [heq]
      rw [mem_unvisitedNeighbors] at hn
      obtain ⟨⟨d, hd, rfl⟩, h1, h2, h3, h4, h5⟩ := hn
      simp only at h1 h2 h3 h4 h5 ⊢
      have hxyv : cellAt s.visited x y = some true :=
        hinv.stackVis (x, y) (by rw [hs]; exact List.mem_cons_self _ _)
      obtain ⟨_, _, hxa, _, hya, _⟩ := hinv.visRoom x y hxyv
      simp only at hxa hya
      have e1 : (x + (x + d.1 * 2)).tdiv 2 = x + d.1 := by
        rw [Int.tdiv_eq_ediv (by omega) (by omega)]
        omega
      have e2 : (y + (y + d.2 * 2)).tdiv 2 = y + d.2 := by
        rw [Int.tdiv_eq_ediv (by omega) (by omega)]
        omega
      rw [e1, e2]
      exact carveInv_push width height s x y rest d hinv hs hd h1 h2 h3 h4 h5

theorem cellAt_visitedInit (width height : Int) (hw : 3 ≤ width) (hh : 3 ≤ height) (x y : Int) :
    cellAt (setCell (List.replicate height.toNat (List.replicate width.toNat false)) 1 1 true) x y =
      if x = 1 ∧ y = 1 then some true
      else if 0 ≤ x ∧ x < width ∧ 0 ≤ y ∧ y < height then some false else none := by
  rw [cellAt_setCell, cellAt_replicate, cellAt_replicate]
  have h1 : (0:Int) ≤ 1 ∧ (1:Int) < (width.toNat : Int) ∧ (0:Int) ≤ 1 ∧ (1:Int) < (height.toNat : Int) := by
    omega
  rw [if_pos h1]
  by_cases hxy : x = 1 ∧ y = 1
  · rw [if_pos hxy, if_pos hxy]
    rfl
  · rw [if_neg hxy, if_neg hxy]
    by_cases hin : 0 ≤ x ∧ x < width ∧ 0 ≤ y ∧ y < height
    · rw [if_pos hin, if_pos (by omega)]
    · rw [if_neg hin, if_neg (by omega)]

theorem carveInv_init (calls : Nat) (width height : Int) (hw : 3 ≤ width) (hh : 3 ≤ height) :
    CarveInv width height (carveInit calls (initializeMaze width height) width height) := by
  have hv := cellAt_visitedInit width height hw hh
  have hvt : ∀ x y, cellAt (carveInit calls (initializeMaze width height) width height).visited x y
      = some true → x = 1 ∧ y = 1 := by
    intro x y h
    unfold carveInit at h
    simp only at h
    rw [hv] at h
    split_ifs at h with h1 h2
    · exact h1
    · simp at h
  have hstart : cellAt (carveInit calls (initializeMaze width height) width height).visited 1 1
      = some true := by
    unfold carveInit
    simp only
    rw [hv, if_pos ⟨rfl, rfl⟩]
  have hopen : cellAt (initializeMaze width height) 1 1 = some ' ' := by
    rw [cellAt_initializeMaze, if_pos (by omega), if_pos (by omega)]
  have hr1 : Rect (carveInit calls (initializeMaze width height) width height).maze
      width.toNat height.toNat := rect_initializeMaze width height
  have hr2 : Rect (carveInit calls (initializeMaze width height) width height).visited
      width.toNat height.toNat := by
    unfold carveInit
    exact rect_setCell (rect_replicate width.toNat height.toNat false) 1 1 true
  refine ⟨hr1, hr2, hstart, ?_, ?_, ?_, ?_, ?_, ?_⟩
  · intro x y h
    obtain ⟨rfl, rfl⟩ := hvt x y h
    exact ⟨by simp only; omega, by simp only; omega, by simp only; omega, by simp only; omega,
      by simp only; omega, by simp only; omega⟩
  · intro p hp
    have : p = (1, 1) := by
      unfold carveInit at hp
      simpa using hp
    rw [this]
    exact hstart
  · intro x y h hnot
    obtain ⟨rfl, rfl⟩ := hvt x y h
    exfalso
    apply hnot
    unfold carveInit
    simp
  · intro x y
    left
    rfl
  · intro x y h
    obtain ⟨rfl, rfl⟩ := hvt x y h
    exact joined_refl hopen
  · have hc : corridorCount (initializeMaze width height) width height = 0 := by
      unfold corridorCount
      rw [List.countP_eq_zero]
      intro p _ hp
      rw [decide_eq_true_iff] at hp
      obtain ⟨hpar, hcell⟩ := hp
      rw [cellAt_initializeMaze] at hcell
      split_ifs at hcell with h1 h2
      · omega
      · simp at hcell
    have hvis : visitedCount (carveInit calls (initializeMaze width height) width height).visited
        width height = 0 + 1 := by
      unfold visitedCount
      have hz : (allCells width height).countP (fun _ => false) = 0 := by
        rw [List.countP_eq_zero]
        intro p _ hp
        simp at hp
      rw [← hz]
      apply countP_update _ _ (1, 1) _ (nodup_allCells _ _)
      · rw [mem_allCells]
        simp only
        omega
      · rfl
      · exact decide_eq_true hstart
      · intro p _ hne
        apply decide_eq_false
        intro h
        obtain ⟨h1, h2⟩ := hvt p.1 p.2 h
        exact hne (Prod.ext h1 h2)
    show corridorCount (initializeMaze width height) width height + 1 = _
    rw [hc, hvis]

theorem carveStep_measure (rnd : Nat → Nat) (width height : Int) (s : CarveState)
    (hne : s.pathStack ≠ []) :
    2 * unvisitedCount (carveStep rnd width height s).visited width height
        + (carveStep rnd width height s).pathStack.length + 1
      = 2 * unvisitedCount s.visited width height + s.pathStack.length := by
  cases hs : s.pathStack with
  | nil => exact absurd hs hne
  | cons p rest =>
    obtain ⟨x, y⟩ := p
    rcases carveStep_cases rnd width height s x y rest hs with ⟨_, heq⟩ | ⟨n, hn, heq⟩
    · rw [heq]
      simp only [List.length_cons]
      omega
    · rw [heq]
      rw [mem_unvisitedNeighbors] at hn
      obtain ⟨_, h1, h2, h3, h4, h5⟩ := hn
      have hset : cellAt (setCell s.visited n.1 n.2 true) n.1 n.2 = some true := by
        rw [cellAt_setCell, if_pos ⟨rfl, rfl⟩, h5]
        rfl
      have hc : unvisitedCount (setCell s.visited n.1 n.2 true) width height + 1
          = unvisitedCount s.visited width height := by
        unfold unvisitedCount
        apply countP_update_down _ _ n _ (nodup_allCells _ _)
        · rw [mem_allCells]
          omega
        · exact decide_eq_true h5
        · apply decide_eq_false
          rw [hset]
          simp
        · intro p _ hpn
          have e := cellAt_setCell_ne s.visited n.1 n.2 p.1 p.2 true
            (fun h => hpn (Prod.ext h.1 h.2))
          simp only [e]
      simp only [List.length_cons]
      omega

theorem carveLoop_ok (rnd : Nat → Nat) (width height : Int) :
    ∀ (fuel : Nat) (s : CarveState), CarveInv width height s →
      2 * unvisitedCount s.visited width height + s.pathStack.length ≤ fuel →
      ∃ s1, carveLoop rnd width height fuel s = .ok s1 ∧ CarveInv width height s1
        ∧ s1.pathStack = [] := by
  intro fuel
  induction fuel with
  | zero =>
    intro s hinv hle
    have hnil : s.pathStack = [] := List.eq_nil_of_length_eq_zero (by omega)
    refine ⟨s, ?_, hinv, hnil⟩
    unfold carveLoop
    rw [hnil]
    rfl
  | succ k ih =>
    intro s hinv hle
    unfold carveLoop
    by_cases hnil : s.pathStack = []
    · refine ⟨s, ?_, hinv, hnil⟩
      rw [hnil]
      rfl
    · have hemp : s.pathStack.isEmpty = false := by
        cases hs : s.pathStack with
        | nil => exact absurd hs hnil
        | cons a t => rfl
      rw [hemp]
      have hm := carveStep_measure rnd width height s hnil
      exact ih (carveStep rnd width height s) (carveInv_step rnd width height s hinv) (by omega)

theorem unvisitedCount_le (v : List (List Bool)) (width height : Int) :
    unvisitedCount v width height ≤ width.toNat * height.toNat := by
  unfold unvisitedCount
  rw [← length_allCells]
  exact List.countP_le_length _

/-- When the stack is empty every room has been marked. -/
theorem carveInv_all_visited (width height : Int) (s : CarveState)
    (hinv : CarveInv width height s) (hnil : s.pathStack = []) :
    ∀ (n : Nat) (x y : Int), isRoom width height (x, y) → x + y ≤ 2 + 2 * n →
      cellAt s.visited x y = some true := by
  intro n
  induction n with
  | zero =>
    intro x y hroom hle
    obtain ⟨h1, h2, h3, h4, h5, h6⟩ := hroom
    simp only at h1 h2 h3 h4 h5 h6
    have hx : x = 1 := by omega
    have hy : y = 1 := by omega
    rw [hx, hy]
    exact hinv.start
  | succ k ih =>
    intro x y hroom hle
    obtain ⟨h1, h2, h3, h4, h5, h6⟩ := hroom
    simp only at h1 h2 h3 h4 h5 h6
    by_cases hx : 3 ≤ x
    · have hprev : cellAt s.visited (x - 2) y = some true :=
        ih (x - 2) y ⟨by simp only; omega, h2, by simp only; omega, by simp only; omega, h5, h6⟩
          (by omega)
      have := hinv.closed (x - 2) y hprev (by rw [hnil]; simp) (1, 0) (by simp [MOVES])
        ⟨by simp only; omega, by simp only; omega, by simp only; omega, by simp only; omega,
          by simp only; omega, by simp only; omega⟩
      simp only at this
      have e1 : x - 2 + 1 * 2 = x := by ring
      have e2 : y + 0 * 2 = y := by ring
      rw [e1, e2] at this
      exact this
    · by_cases hy : 3 ≤ y
      · have hprev : cellAt s.visited x (y - 2) = some true :=
          ih x (y - 2) ⟨h1, by simp only; omega, h3, h4, by simp only; omega, by simp only; omega⟩
            (by omega)
        have := hinv.closed x (y - 2) hprev (by rw [hnil]; simp) (0, 1) (by simp [MOVES])
          ⟨by simp only; omega, by simp only; omega, by simp only; omega, by simp only; omega,
            by simp only; omega, by simp only; omega⟩
        simp only at this
        have e1 : y - 2 + 1 * 2 = y := by ring
        have e2 : x + 0 * 2 = x := by ring
        rw [e1, e2] at this
        exact this
      · have hx1 : x = 1 := by omega
        have hy1 : y = 1 := by omega
        rw [hx1, hy1]
        exact hinv.start

theorem carveInv_room_visited (width height : Int) (s : CarveState)
    (hinv : CarveInv width height s) (hnil : s.pathStack = []) (x y : Int)
    (hroom : isRoom width height (x, y)) : cellAt s.visited x y = some true := by
  have hpos : 0 < x + y := by
    obtain ⟨_, _, h3, _, h5, _⟩ := hroom
    simp only at h3 h5
    omega
  exact carveInv_all_visited width height s hinv hnil (x + y).toNat x y hroom (by omega)

/-- The carving loop of `generateMaze` ends with an empty stack, and `generateMaze`
returns the loop's grid with the start opened and the exit marked. -/
theorem generateMaze_ok (rnd : Nat → Nat) (calls : Nat) (width height : Int)
    (hw : 3 ≤ width) (hh : 3 ≤ height) :
    ∃ s, CarveInv width height s ∧ s.pathStack = [] ∧
      generateMaze rnd calls (initializeMaze width height) width height =
        .ok (setCell (setCell s.maze 1 1 ' ') (width - 2) (height - 2) 'X', s.calls) := by
  have hinit := carveInv_init calls width height hw hh
  have hfuel : 2 * unvisitedCount (carveInit calls (initializeMaze width height) width height).visited
      width height + (carveInit calls (initializeMaze width height) width height).pathStack.length
      ≤ carveFuel width height := by
    have := unvisitedCount_le (carveInit calls (initializeMaze width height) width height).visited
      width height
    have hl : (carveInit calls (initializeMaze width height) width height).pathStack.length = 1 := rfl
    unfold carveFuel
    omega
  obtain ⟨s, hs, hinv, hnil⟩ := carveLoop_ok rnd width height _ _ hinit hfuel
  refine ⟨s, hinv, hnil, ?_⟩
  unfold generateMaze
  rw [hs]

/-- During carving every cell inside the grid is Wall or Open. -/
theorem carveInv_cell (width height : Int) (s : CarveState) (hinv : CarveInv width height s)
    (x y : Int) (c : Char) (h : cellAt s.maze x y = some c) : c = ' ' ∨ c = '|' := by
  rcases hinv.cells x y with h1 | h1
  · rw [h1, cellAt_initializeMaze] at h
    split_ifs at h with h2 h3
    · left
      exact (Option.some.inj h).symm
    · right
      exact (Option.some.inj h).symm
  · rw [h1.1] at h
    left
    exact (Option.some.inj h).symm

/-- During carving a cell with an even coordinate is Open only between two marked rooms. -/
theorem carveInv_corridor (width height : Int) (s : CarveState) (hinv : CarveInv width height s)
    (x y : Int) (hpar : x % 2 = 0 ∨ y % 2 = 0) (h : cellAt s.maze x y = some ' ') :
    (x % 2 = 0 ∧ y % 2 = 1 ∧ isRoom width height (x - 1, y) ∧ isRoom width height (x + 1, y)) ∨
    (x % 2 = 1 ∧ y % 2 = 0 ∧ isRoom width height (x, y - 1) ∧ isRoom width height (x, y + 1)) := by
  rcases hinv.cells x y with h1 | h1
  · rw [h1, cellAt_initializeMaze] at h
    split_ifs at h with h2 h3
    · omega
    · simp at h
  · rcases h1.2 with ⟨a, b, c, d⟩ | ⟨a, b, c, d⟩
    · exact Or.inl ⟨a, b, hinv.visRoom _ _ c, hinv.visRoom _ _ d⟩
    · exact Or.inr ⟨a, b, hinv.visRoom _ _ c, hinv.visRoom _ _ d⟩

/-- During carving the cells with both coordinates odd stay Open. -/
theorem carveInv_odd_open (width height : Int) (s : CarveState) (hinv : CarveInv width height s)
    (x y : Int) (hx : 0 ≤ x ∧ x < width) (hy : 0 ≤ y ∧ y < height) (hxo : x % 2 = 1)
    (hyo : y % 2 = 1) : cellAt s.maze x y = some ' ' := by
  rcases hinv.cells x y with h1 | h1
  · rw [h1, cellAt_initializeMaze, if_pos (by omega), if_pos (by omega)]
  · exact h1.1

/-- The grid `generateMaze` returns, cell by cell, from the grid its loop ends with. -/
theorem cellAt_final (width height : Int) (s : CarveState) (hinv : CarveInv width height s)
    (hw : 3 ≤ width) (hh : 3 ≤ height) (x y : Int) :
    cellAt (setCell (setCell s.maze 1 1 ' ') (width - 2) (height - 2) 'X') x y =
      if x = width - 2 ∧ y = height - 2 then some 'X' else cellAt s.maze x y := by
  have hstart : cellAt s.maze 1 1 = some ' ' :=
    carveInv_odd_open width height s hinv 1 1 (by omega) (by omega) (by decide) (by decide)
  have h1 : ∀ a b, cellAt (setCell s.maze 1 1 ' ') a b = cellAt s.maze a b := by
    intro a b
    rw [cellAt_setCell]
    split_ifs with h
    · obtain ⟨rfl, rfl⟩ := h
      rw [hstart]
      rfl
    · rfl
  rw [cellAt_setCell, h1, h1]
  split_ifs with h
  · obtain ⟨c, hc⟩ := cellAt_some_of_rect hinv.mazeRect (width - 2) (height - 2)
      (by omega) (by omega) (by omega) (by omega)
    rw [hc]
    rfl
  · rfl

/-! ## Maze generation -/

/-- C1 (evaluated at the failing input): at level 1 (width 17, height 8), whatever the
random choices, `generateMaze` returns a grid whose cell (1, 7), on the bottom border row
`height - 1`, is Open and not Wall. -/
theorem border_row_open_at_level_one (rnd : Nat → Nat) (calls : Nat) :
    ∃ g k, generateMaze rnd calls (initializeMaze (levelWidth 1) (levelHeight 1))
        (levelWidth 1) (levelHeight 1) = .ok (g, k) ∧
      cellAt g 1 (levelHeight 1 - 1) = some ' ' := by
  have hw : levelWidth 1 = 17 := by decide
  have hh : levelHeight 1 = 8 := by decide
  rw [hw, hh]
  obtain ⟨s, hinv, _, hgen⟩ := generateMaze_ok rnd calls 17 8 (by decide) (by decide)
  refine ⟨_, _, hgen, ?_⟩
  rw [cellAt_final 17 8 s hinv (by decide) (by decide), if_neg (by decide)]
  exact carveInv_odd_open 17 8 s hinv 1 7 (by decide) (by decide) (by decide) (by decide)

theorem not_joined_of_walled (ok : Pos → Prop) (a b : Pos) (hab : a ≠ b)
    (hwalled : ∀ c, adjacent a c → ¬ ok c) : ¬ Joined ok a b := by
  rintro ⟨path, hhead, hlast, hchain, hok⟩
  cases path with
  | nil => simp at hhead
  | cons p rest =>
    simp only [List.head?_cons, Option.some.injEq] at hhead
    subst hhead
    cases rest with
    | nil =>
      simp only [List.getLast?_singleton, Option.some.injEq] at hlast
      exact hab hlast
    | cons c rest2 =>
      rw [List.chain'_cons] at hchain
      exact hwalled c hchain.1 (hok c (by simp))

/-- C2 (evaluated at the failing input): at level 1 (width 17, height 8), whatever the
random choices, the cells (1, 7) and (1, 1) of the generated grid are both Open and have
both coordinates odd, and no path of orthogonally adjacent non-Wall cells leads from
(1, 7) to (1, 1). -/
theorem isolated_room_at_level_one (rnd : Nat → Nat) (calls : Nat) :
    ∃ g k, generateMaze rnd calls (initializeMaze (levelWidth 1) (levelHeight 1))
        (levelWidth 1) (levelHeight 1) = .ok (g, k) ∧
      isOpen g (1, 7) ∧ isOpen g (1, 1) ∧ ¬ Joined (isFree g) (1, 7) (1, 1) := by
  have hw : levelWidth 1 = 17 := by decide
  have hh : levelHeight 1 = 8 := by decide
  rw [hw, hh]
  obtain ⟨s, hinv, _, hgen⟩ := generateMaze_ok rnd calls 17 8 (by decide) (by decide)
  have hfin := cellAt_final 17 8 s hinv (by decide) (by decide)
  refine ⟨_, _, hgen, ?_, ?_, ?_⟩
  · show cellAt _ 1 7 = some ' '
    rw [hfin, if_neg (by decide)]
    exact carveInv_odd_open 17 8 s hinv 1 7 (by decide) (by decide) (by decide) (by decide)
  · show cellAt _ 1 1 = some ' '
    rw [hfin, if_neg (by decide)]
    exact carveInv_odd_open 17 8 s hinv 1 1 (by decide) (by decide) (by decide) (by decide)
  · apply not_joined_of_walled _ _ _ (by decide)
    rintro ⟨cx, cy⟩ hadj ⟨c, hc, hcw⟩
    simp only at hc
    unfold adjacent at hadj
    simp only at hadj
    have hne : ¬ (cx = 17 - 2 ∧ cy = 8 - 2) := by omega
    rw [hfin, if_neg hne] at hc
    rcases carveInv_cell 17 8 s hinv cx cy c hc with rfl | rfl
    · have hpar : cx % 2 = 0 ∨ cy % 2 = 0 := by omega
      rcases carveInv_corridor 17 8 s hinv cx cy hpar hc with ⟨_, _, h1, h2⟩ | ⟨_, _, h1, h2⟩
      · obtain ⟨_, _, a1, a2, a3, a4⟩ := h1
        obtain ⟨_, _, b1, b2, b3, b4⟩ := h2
        simp only at a1 a2 a3 a4 b1 b2 b3 b4
        omega
      · obtain ⟨_, _, a1, a2, a3, a4⟩ := h1
        obtain ⟨_, _, b1, b2, b3, b4⟩ := h2
        simp only at a1 a2 a3 a4 b1 b2 b3 b4
        omega
    · exact hcw rfl

theorem visitedCount_eq_rooms (width height : Int) (s : CarveState)
    (hinv : CarveInv width height s) (hnil : s.pathStack = []) :
    visitedCount s.visited width height = (rooms width height).length := by
  unfold visitedCount rooms
  rw [← List.countP_eq_length_filter]
  apply List.countP_congr
  intro p _
  simp only [decide_eq_true_eq]
  constructor
  · intro h
    exact hinv.visRoom p.1 p.2 h
  · intro h
    exact carveInv_room_visited width height s hinv hnil p.1 p.2 h

theorem corridorCount_final (width height : Int) (s : CarveState)
    (hinv : CarveInv width height s) (hw : 3 ≤ width) (hh : 3 ≤ height) :
    corridorCount (setCell (setCell s.maze 1 1 ' ') (width - 2) (height - 2) 'X') width height
      = corridorCount s.maze width height := by
  unfold corridorCount
  apply List.countP_congr
  intro p _
  simp only [decide_eq_true_eq]
  unfold isOpenCorridor
  rw [cellAt_final width height s hinv hw hh]
  by_cases hex : p.1 = width - 2 ∧ p.2 = height - 2
  · rw [if_pos hex]
    constructor
    · rintro ⟨_, h⟩
      simp at h
    · rintro ⟨hpar, h⟩
      exfalso
      rcases carveInv_corridor width height s hinv p.1 p.2 hpar h with
        ⟨_, _, h1, h2⟩ | ⟨_, _, h1, h2⟩
      · obtain ⟨_, _, b1, b2, b3, b4⟩ := h2
        simp only at b1 b2 b3 b4
        omega
      · obtain ⟨_, _, b1, b2, b3, b4⟩ := h2
        simp only at b1 b2 b3 b4
        omega
  · rw [if_neg hex]

/-- C3: for every width and height of at least 3 and every sequence of random choices,
`generateMaze` on `initializeMaze width height` returns a grid whose number of Open cells
with at least one even coordinate is the number of rooms minus one (there is at least one
room); in particular the rooms of a 5 by 5 grid are (1,1), (1,3), (3,1), (3,3) and exactly
3 corridor cells are Open there. -/
theorem corridor_count_is_rooms_minus_one (rnd : Nat → Nat) (calls : Nat) (width height : Int)
    (hw : 3 ≤ width) (hh : 3 ≤ height) :
    (∃ g k, generateMaze rnd calls (initializeMaze width height) width height = .ok (g, k) ∧
      1 ≤ (rooms width height).length ∧
      corridorCount g width height = (rooms width height).length - 1) ∧
    rooms 5 5 = [(1, 1), (1, 3), (3, 1), (3, 3)] ∧
    (∃ g k, generateMaze rnd calls (initializeMaze 5 5) 5 5 = .ok (g, k) ∧
      corridorCount g 5 5 = 3) := by
  have key : ∀ w h : Int, 3 ≤ w → 3 ≤ h →
      ∃ g k, generateMaze rnd calls (initializeMaze w h) w h = .ok (g, k) ∧
        corridorCount g w h + 1 = (rooms w h).length := by
    intro w h hw1 hh1
    obtain ⟨s, hinv, hnil, hgen⟩ := generateMaze_ok rnd calls w h hw1 hh1
    refine ⟨_, _, hgen, ?_⟩
    rw [corridorCount_final w h s hinv hw1 hh1, hinv.count,
      visitedCount_eq_rooms w h s hinv hnil]
  have hrooms : rooms 5 5 = [(1, 1), (1, 3), (3, 1), (3, 3)] := by decide
  refine ⟨?_, hrooms, ?_⟩
  · obtain ⟨g, k, hgen, hcount⟩ := key width height hw hh
    exact ⟨g, k, hgen, by omega, by omega⟩
  · obtain ⟨g, k, hgen, hcount⟩ := key 5 5 (by decide) (by decide)
    rw [hrooms] at hcount
    simp only [List.length_cons, List.length_nil] at hcount
    exact ⟨g, k, hgen, by omega⟩

/-- Witness of C3 on the 5 by 5 grid with the random stream that is constantly 0. -/
theorem corridor_count_five_by_five :
    (3 : Int) ≤ 5 ∧
    ∃ g k, generateMaze (fun _ => 0) 0 (initializeMaze 5 5) 5 5 = .ok (g, k) ∧
      corridorCount g 5 5 = 3 :=
  ⟨by decide, (corridor_count_is_rooms_minus_one (fun _ => 0) 0 5 5 (by decide) (by decide)).2.2⟩

/-- C4: for every level of at least 1 and every sequence of random choices, the generated
grid has a path of orthogonally adjacent cells from the start (1, 1) to the Exit cell
(width - 2, height - 2) on which every cell other than the Exit cell is Open. -/
theorem exit_reachable_from_start (rnd : Nat → Nat) (calls : Nat) (level : Int)
    (hl : 1 ≤ level) :
    ∃ g k, generateMaze rnd calls (initializeMaze (levelWidth level) (levelHeight level))
        (levelWidth level) (levelHeight level) = .ok (g, k) ∧
      ∃ path, IsPath
        (fun c => c ≠ (levelWidth level - 2, levelHeight level - 2) → cellAt g c.1 c.2 = some ' ')
        (1, 1) (levelWidth level - 2, levelHeight level - 2) path := by
  have hw : 3 ≤ levelWidth level := by unfold levelWidth; omega
  have hh : 3 ≤ levelHeight level := by unfold levelHeight; omega
  obtain ⟨s, hinv, hnil, hgen⟩ := generateMaze_ok rnd calls _ _ hw hh
  have hfin := cellAt_final _ _ s hinv hw hh
  refine ⟨_, _, hgen, ?_⟩
  have hmono : ∀ c : Pos, isOpen s.maze c →
      (c ≠ (levelWidth level - 2, levelHeight level - 2) →
        cellAt (setCell (setCell s.maze 1 1 ' ') (levelWidth level - 2) (levelHeight level - 2) 'X')
          c.1 c.2 = some ' ') := by
    intro c hc hne
    rw [hfin, if_neg (fun h => hne (Prod.ext h.1 h.2))]
    exact hc
  by_cases hpar : (levelHeight level) % 2 = 1
  · have hroom : isRoom (levelWidth level) (levelHeight level)
        (levelWidth level - 2, levelHeight level - 2) := by
      have hwv : levelWidth level = 15 + level * 2 := rfl
      have hhv : levelHeight level = 7 + level := rfl
      unfold isRoom
      simp only
      omega
    exact joined_mono hmono
      (hinv.reach _ _ (carveInv_room_visited _ _ s hinv hnil _ _ hroom))
  · have hroom : isRoom (levelWidth level) (levelHeight level)
        (levelWidth level - 2, levelHeight level - 3) := by
      have hwv : levelWidth level = 15 + level * 2 := rfl
      have hhv : levelHeight level = 7 + level := rfl
      unfold isRoom
      simp only
      omega
    refine joined_snoc (joined_mono hmono
      (hinv.reach _ _ (carveInv_room_visited _ _ s hinv hnil _ _ hroom))) ?_ ?_
    · unfold adjacent
      left
      refine ⟨rfl, Or.inr ?_⟩
      show levelHeight level - 2 = levelHeight level - 3 + 1
      omega
    · intro hne
      exact absurd rfl hne

/-- Witness of C4 at level 1 with the random stream that is constantly 0. -/
theorem exit_reachable_at_level_one :
    (1 : Int) ≤ 1 ∧
    ∃ g k, generateMaze (fun _ => 0) 0 (initializeMaze (levelWidth 1) (levelHeight 1))
        (levelWidth 1) (levelHeight 1) = .ok (g, k) ∧
      ∃ path, IsPath
        (fun c => c ≠ (levelWidth 1 - 2, levelHeight 1 - 2) → cellAt g c.1 c.2 = some ' ')
        (1, 1) (levelWidth 1 - 2, levelHeight 1 - 2) path :=
  ⟨by decide, exit_reachable_from_start (fun _ => 0) 0 1 (by decide)⟩

/-- C5: for every level of at least 1 and every sequence of random choices, the generated
grid holds `'X'` at the cell (width - 2, height - 2) and nowhere else, and its start cell
(1, 1) is Open. -/
theorem exactly_one_exit_and_start_open (rnd : Nat → Nat) (calls : Nat) (level : Int)
    (hl : 1 ≤ level) :
    ∃ g k, generateMaze rnd calls (initializeMaze (levelWidth level) (levelHeight level))
        (levelWidth level) (levelHeight level) = .ok (g, k) ∧
      (∀ x y, cellAt g x y = some 'X' ↔ (x = levelWidth level - 2 ∧ y = levelHeight level - 2)) ∧
      cellAt g 1 1 = some ' ' := by
  have hw : 3 ≤ levelWidth level := by unfold levelWidth; omega
  have hh : 3 ≤ levelHeight level := by unfold levelHeight; omega
  obtain ⟨s, hinv, hnil, hgen⟩ := generateMaze_ok rnd calls _ _ hw hh
  have hfin := cellAt_final _ _ s hinv hw hh
  refine ⟨_, _, hgen, ?_, ?_⟩
  · intro x y
    rw [hfin]
    constructor
    · intro h
      split_ifs at h with hex
      · exact hex
      · rcases carveInv_cell _ _ s hinv x y 'X' h with h1 | h1
        · exact absurd h1 (by decide)
        · exact absurd h1 (by decide)
    · intro h
      rw [if_pos h]
  · have hne : ¬ ((1 : Int) = levelWidth level - 2 ∧ (1 : Int) = levelHeight level - 2) := by
      unfold levelWidth
      omega
    rw [hfin, if_neg hne]
    exact carveInv_odd_open _ _ s hinv 1 1 (by omega) (by omega) (by decide) (by decide)

/-- Witness of C5 at level 1 with the random stream that is constantly 0. -/
theorem exactly_one_exit_at_level_one :
    (1 : Int) ≤ 1 ∧
    ∃ g k, generateMaze (fun _ => 0) 0 (initializeMaze (levelWidth 1) (levelHeight 1))
        (levelWidth 1) (levelHeight 1) = .ok (g, k) ∧
      (∀ x y, cellAt g x y = some 'X' ↔ (x = levelWidth 1 - 2 ∧ y = levelHeight 1 - 2)) ∧
      cellAt g 1 1 = some ' ' :=
  ⟨by decide, exactly_one_exit_and_start_open (fun _ => 0) 0 1 (by decide)⟩

/-- C6 (evaluated at the failing input): in `initializeMaze 17 8`, the grid of level 1, the
cell (1, 7) is Open although `y = 7` is outside the inner bounds `1 ≤ y ≤ height - 2 = 6`. -/
theorem initializeMaze_opens_bottom_row :
    cellAt (initializeMaze 17 8) 1 7 = some ' ' ∧ ¬ ((1 : Int) ≤ 7 ∧ (7 : Int) ≤ 8 - 2) := by
  constructor
  · rw [cellAt_initializeMaze, if_pos (by decide), if_pos (by decide)]
  · decide

/-! ## Player, attack and enemy movement -/

/-- C7: in a grid of `w` by `h` cells with the player strictly inside, `movePlayer` with
w/a/s/d keeps the position when the cell one step up (y-1), left (x-1), down (y+1), right
(x+1) is Wall and moves there otherwise; any other input keeps the position.  In
particular, from (1,1) with (1,2) Wall and (2,1) Open, `'d'` moves to (2,1) and `'s'`
changes nothing. -/
theorem movePlayer_moves_unless_wall (g : Grid) (w h : Nat) (px py : Int) (hg : Rect g w h)
    (hx : 0 < px ∧ px < (w : Int) - 1) (hy : 0 < py ∧ py < (h : Int) - 1) :
    movePlayer g px py 'w' =
        .ok (if cellAt g px (py - 1) = some '|' then (px, py) else (px, py - 1)) ∧
    movePlayer g px py 'a' =
        .ok (if cellAt g (px - 1) py = some '|' then (px, py) else (px - 1, py)) ∧
    movePlayer g px py 's' =
        .ok (if cellAt g px (py + 1) = some '|' then (px, py) else (px, py + 1)) ∧
    movePlayer g px py 'd' =
        .ok (if cellAt g (px + 1) py = some '|' then (px, py) else (px + 1, py)) ∧
    (∀ input : Char, input ≠ 'w' → input ≠ 'a' → input ≠ 's' → input ≠ 'd' →
      movePlayer g px py input = .ok (px, py)) ∧
    (px = 1 → py = 1 → cellAt g 1 2 = some '|' → cellAt g 2 1 = some ' ' →
      movePlayer g px py 'd' = .ok (2, 1) ∧ movePlayer g px py 's' = .ok (1, 1)) := by
  have key : ∀ (input : Char) (nx ny : Int), moveTarget px py input = some (nx, ny) →
      0 ≤ nx → nx < w → 0 ≤ ny → ny < h →
      movePlayer g px py input =
        .ok (if cellAt g nx ny = some '|' then (px, py) else (nx, ny)) := by
    intro input nx ny ht h1 h2 h3 h4
    obtain ⟨c, hc⟩ := cellAt_some_of_rect hg nx ny h1 h2 h3 h4
    unfold movePlayer
    rw [ht]
    simp only [hc]
    by_cases hcw : c = '|'
    · simp [hcw]
    · simp [hcw]
  have hw := key 'w' px (py - 1) rfl (by omega) (by omega) (by omega) (by omega)
  have ha := key 'a' (px - 1) py rfl (by omega) (by omega) (by omega) (by omega)
  have hs := key 's' px (py + 1) rfl (by omega) (by omega) (by omega) (by omega)
  have hd := key 'd' (px + 1) py rfl (by omega) (by omega) (by omega) (by omega)
  refine ⟨hw, ha, hs, hd, ?_, ?_⟩
  · intro input h1 h2 h3 h4
    unfold movePlayer moveTarget
    simp [h1, h2, h3, h4]
  · intro hpx hpy hwall hopen
    subst hpx hpy
    rw [hd, hs]
    have e1 : (1 : Int) + 1 = 2 := rfl
    rw [e1, hwall, hopen]
    simp

/-- Witness of C7: the player at (1,1) of a 4 by 3 grid whose cell (1,2) is Wall and
whose cell (2,1) is Open. -/
theorem movePlayer_example :
    Rect [['|', '|', '|', '|'], ['|', ' ', ' ', '|'], ['|', '|', '|', '|']] 4 3 ∧
    movePlayer [['|', '|', '|', '|'], ['|', ' ', ' ', '|'], ['|', '|', '|', '|']] 1 1 'd'
      = .ok (2, 1) ∧
    movePlayer [['|', '|', '|', '|'], ['|', ' ', ' ', '|'], ['|', '|', '|', '|']] 1 1 's'
      = .ok (1, 1) :=
  have hr : Rect [['|', '|', '|', '|'], ['|', ' ', ' ', '|'], ['|', '|', '|', '|']] 4 3 := by
    unfold Rect
    decide
  ⟨hr, (movePlayer_moves_unless_wall _ 4 3 1 1 hr (by decide) (by decide)).2.2.2.2.2
    rfl rfl (by decide) (by decide)⟩

theorem attackFrom_spec (px py : Int) (enemies : List Pos) :
    ∀ ds : List (Int × Int),
      ((attackFrom px py enemies ds).2 = true ↔ ∃ d ∈ ds, (px + d.1, py + d.2) ∈ enemies) ∧
      ((attackFrom px py enemies ds).2 = true →
        ∃ d ∈ ds, (px + d.1, py + d.2) ∈ enemies ∧
          (attackFrom px py enemies ds).1 = enemies.erase (px + d.1, py + d.2)) ∧
      ((attackFrom px py enemies ds).2 = false → (attackFrom px py enemies ds).1 = enemies) := by
  intro ds
  induction ds with
  | nil =>
    unfold attackFrom
    simp
  | cons d t ih =>
    unfold attackFrom
    by_cases hmem : (px + d.1, py + d.2) ∈ enemies
    · rw [if_pos hmem]
      refine ⟨?_, ?_, ?_⟩
      · simp only [true_iff]
        exact ⟨d, List.mem_cons_self _ _, hmem⟩
      · intro _
        exact ⟨d, List.mem_cons_self _ _, hmem, rfl⟩
      · intro h
        simp at h
    · rw [if_neg hmem]
      obtain ⟨ih1, ih2, ih3⟩ := ih
      refine ⟨?_, ?_, ih3⟩
      · rw [ih1]
        constructor
        · rintro ⟨e, he, hin⟩
          exact ⟨e, List.mem_cons_of_mem _ he, hin⟩
        · rintro ⟨e, he, hin⟩
          rcases List.mem_cons.mp he with rfl | he
          · exact absurd hin hmem
          · exact ⟨e, he, hin⟩
      · intro h
        obtain ⟨e, he, hin, heq⟩ := ih2 h
        exact ⟨e, List.mem_cons_of_mem _ he, hin, heq⟩

theorem adjacent_iff_move (p e : Pos) :
    adjacent p e ↔ ∃ d ∈ MOVES, e = (p.1 + d.1, p.2 + d.2) := by
  unfold adjacent
  constructor
  · intro h
    rcases h with ⟨h1, h2 | h2⟩ | ⟨h1, h2 | h2⟩
    · exact ⟨(0, -1), by simp [MOVES], Prod.ext (by simp only; omega) (by simp only; omega)⟩
    · exact ⟨(0, 1), by simp [MOVES], Prod.ext (by simp only; omega) (by simp only; omega)⟩
    · exact ⟨(-1, 0), by simp [MOVES], Prod.ext (by simp only; omega) (by simp only; omega)⟩
    · exact ⟨(1, 0), by simp [MOVES], Prod.ext (by simp only; omega) (by simp only; omega)⟩
  · rintro ⟨d, hd, rfl⟩
    rcases (mem_MOVES d).mp hd with rfl | rfl | rfl | rfl <;> simp

/-- C8: `attackEnemy` reports "defeated" exactly when some enemy is on a cell orthogonally
adjacent to the player; then the new enemy list is the old one with exactly one element
removed, an enemy on such a cell, the order of the others kept; otherwise ("no target")
the list is unchanged. -/
theorem attackEnemy_removes_at_most_one_adjacent (px py : Int) (enemies : List Pos) :
    ((attackEnemy px py enemies).2 = true ↔ ∃ e ∈ enemies, adjacent (px, py) e) ∧
    ((attackEnemy px py enemies).2 = true →
      ∃ before e after, enemies = before ++ e :: after ∧
        (attackEnemy px py enemies).1 = before ++ after ∧ adjacent (px, py) e) ∧
    ((attackEnemy px py enemies).2 = false → (attackEnemy px py enemies).1 = enemies) := by
  obtain ⟨h1, h2, h3⟩ := attackFrom_spec px py enemies MOVES
  unfold attackEnemy
  refine ⟨?_, ?_, h3⟩
  · rw [h1]
    constructor
    · rintro ⟨d, hd, hin⟩
      exact ⟨_, hin, (adjacent_iff_move (px, py) _).mpr ⟨d, hd, rfl⟩⟩
    · rintro ⟨e, he, hadj⟩
      obtain ⟨d, hd, rfl⟩ := (adjacent_iff_move (px, py) e).mp hadj
      exact ⟨d, hd, he⟩
  · intro h
    obtain ⟨d, hd, hin, heq⟩ := h2 h
    obtain ⟨l1, l2, _, hsplit, herase⟩ := List.exists_erase_eq hin
    refine ⟨l1, _, l2, hsplit, ?_, (adjacent_iff_move (px, py) _).mpr ⟨d, hd, rfl⟩⟩
    rw [heq, herase]

theorem validMoves_spec (g : Grid) (w h : Nat) (px py ex ey : Int) (hg : Rect g w h)
    (hx : 0 < ex ∧ ex < (w : Int) - 1) (hy : 0 < ey ∧ ey < (h : Int) - 1) :
    ∀ ds : List (Int × Int), (∀ d ∈ ds, d ∈ MOVES) →
      ∃ moves, validMoves g px py ex ey ds = .ok moves ∧
        ∀ m ∈ moves, adjacent (ex, ey) m ∧ isFree g m ∧ m ≠ (px, py) := by
  intro ds
  induction ds with
  | nil =>
    intro _
    exact ⟨[], rfl, by simp⟩
  | cons d t ih =>
    intro hds
    have hd : d ∈ MOVES := hds d (List.mem_cons_self _ _)
    obtain ⟨rest, hrest, hprop⟩ := ih (fun e he => hds e (List.mem_cons_of_mem _ he))
    have hdc : (d.1 = 0 ∧ (d.2 = -1 ∨ d.2 = 1)) ∨ (d.2 = 0 ∧ (d.1 = -1 ∨ d.1 = 1)) := by
      rcases (mem_MOVES d).mp hd with e | e | e | e <;> rw [e] <;> simp
    obtain ⟨c, hc⟩ := cellAt_some_of_rect hg (ex + d.1) (ey + d.2)
      (by omega) (by omega) (by omega) (by omega)
    unfold validMoves
    rw [hc]
    simp only [hrest]
    by_cases hcond : c ≠ '|' ∧ ¬ (ex + d.1 = px ∧ ey + d.2 = py)
    · rw [if_pos hcond]
      refine ⟨_, rfl, ?_⟩
      intro m hm
      rcases List.mem_cons.mp hm with rfl | hm
      · refine ⟨(adjacent_iff_move (ex, ey) _).mpr ⟨d, hd, rfl⟩, ⟨c, hc, hcond.1⟩, ?_⟩
        intro heq
        exact hcond.2 ⟨congrArg Prod.fst heq, congrArg Prod.snd heq⟩
      · exact hprop m hm
    · rw [if_neg hcond]
      exact ⟨_, rfl, hprop⟩

/-- C9: in a grid of `w` by `h` cells, when every enemy is on a non-Wall cell strictly
inside the grid, `moveEnemies` returns an enemy list of the same length in which each
enemy is where it was or one orthogonal step away, on a cell inside the grid that is
not Wall. -/
theorem moveEnemies_keeps_enemies_legal (rnd : Nat → Nat) (g : Grid) (w h : Nat)
    (px py : Int) (hg : Rect g w h) :
    ∀ (enemies : List Pos) (calls : Nat),
      (∀ e ∈ enemies, (0 < e.1 ∧ e.1 < (w : Int) - 1) ∧ (0 < e.2 ∧ e.2 < (h : Int) - 1)
        ∧ isFree g e) →
      ∃ es hit k, moveEnemies rnd g px py calls enemies = .ok (es, hit, k) ∧
        es.length = enemies.length ∧
        List.Forall₂ (fun e e1 => (e1 = e ∨ adjacent e e1) ∧ isFree g e1) enemies es := by
  intro enemies
  induction enemies with
  | nil =>
    intro calls _
    exact ⟨[], false, calls, rfl, rfl, List.Forall₂.nil⟩
  | cons e rest ih =>
    intro calls hen
    obtain ⟨ex, ey⟩ := e
    obtain ⟨hx, hy, hfree⟩ := hen (ex, ey) (List.mem_cons_self _ _)
    simp only at hx hy
    obtain ⟨moves, hmoves, hprop⟩ :=
      validMoves_spec g w h px py ex ey hg hx hy MOVES (fun d hd => hd)
    have hnew : ∀ e1 : Pos,
        e1 = (if moves.isEmpty then (ex, ey) else moves.getD (rnd calls % moves.length) (ex, ey)) →
        (e1 = (ex, ey) ∨ adjacent (ex, ey) e1) ∧ isFree g e1 := by
      intro e1 he1
      cases hm : moves with
      | nil =>
        rw [hm] at he1
        simp only [List.isEmpty_nil, if_true] at he1
        rw [he1]
        exact ⟨Or.inl rfl, hfree⟩
      | cons a t =>
        have hlt : rnd calls % moves.length < moves.length :=
          Nat.mod_lt _ (by rw [hm]; simp)
        have hnote : moves.isEmpty = false := by rw [hm]; rfl
        rw [hnote] at he1
        simp only [Bool.false_eq_true, if_false] at he1
        rw [List.getD_eq_getElem _ _ hlt] at he1
        have hmem : e1 ∈ moves := by
          rw [he1]
          exact List.getElem_mem hlt
        exact ⟨Or.inr (hprop e1 hmem).1, (hprop e1 hmem).2.1⟩
    have hrest : ∀ l : List Pos, (∀ a ∈ l, isFree g a) →
        List.Forall₂ (fun e e1 => (e1 = e ∨ adjacent e e1) ∧ isFree g e1) l l := by
      intro l
      induction l with
      | nil => intro _; exact List.Forall₂.nil
      | cons a t iht =>
        intro hl
        exact List.Forall₂.cons ⟨Or.inl rfl, hl a (List.mem_cons_self _ _)⟩
          (iht (fun b hb => hl b (List.mem_cons_of_mem _ hb)))
    unfold moveEnemies
    simp only [hmoves]
    generalize hE : (if moves.isEmpty then (ex, ey)
      else moves.getD (rnd calls % moves.length) (ex, ey)) = e1
    generalize (if moves.isEmpty then calls else calls + 1) = calls1
    by_cases hhit : e1.1 = px ∧ e1.2 = py
    · rw [if_pos hhit]
      refine ⟨_, true, _, rfl, by simp, ?_⟩
      exact List.Forall₂.cons (hnew e1 hE.symm)
        (hrest rest (fun a ha => (hen a (List.mem_cons_of_mem _ ha)).2.2))
    · rw [if_neg hhit]
      obtain ⟨es, hit, k, hrec, hlen, hall⟩ :=
        ih calls1 (fun a ha => hen a (List.mem_cons_of_mem _ ha))
      rw [hrec]
      refine ⟨_, hit, k, rfl, by simp [hlen], ?_⟩
      exact List.Forall₂.cons (hnew e1 hE.symm) hall

/-- Witness of C9: one enemy at (2,1) of a 5 by 3 grid with an open middle row, the
player at (1,1). -/
theorem moveEnemies_example :
    Rect [['|', '|', '|', '|', '|'], ['|', ' ', ' ', ' ', '|'], ['|', '|', '|', '|', '|']] 5 3 ∧
    ∃ es hit k,
      moveEnemies (fun _ => 0)
        [['|', '|', '|', '|', '|'], ['|', ' ', ' ', ' ', '|'], ['|', '|', '|', '|', '|']]
        1 1 0 [(2, 1)] = .ok (es, hit, k) ∧
      es.length = [((2 : Int), (1 : Int))].length ∧
      List.Forall₂ (fun e e1 => (e1 = e ∨ adjacent e e1) ∧
        isFree [['|', '|', '|', '|', '|'], ['|', ' ', ' ', ' ', '|'], ['|', '|', '|', '|', '|']] e1)
        [(2, 1)] es :=
  have hr : Rect [['|', '|', '|', '|', '|'], ['|', ' ', ' ', ' ', '|'],
      ['|', '|', '|', '|', '|']] 5 3 := by
    unfold Rect
    decide
  ⟨hr, moveEnemies_keeps_enemies_legal (fun _ => 0) _ 5 3 1 1 hr [(2, 1)] 0 (by
    intro e he
    rw [List.mem_singleton] at he
    subst he
    exact ⟨by decide, by decide, ' ', by decide, by decide⟩)⟩

/-! ## Level setup -/

theorem spawnEnemy_cases (rnd : Nat → Nat) (maze : Grid) (w h : Nat) (width height px py : Int)
    (hg : Rect maze w h) (hw : width = w) (hh : height = h) (hwpos : 0 < width)
    (hhpos : 0 < height) :
    ∀ (fuel calls : Nat),
      spawnEnemy rnd maze width height px py fuel calls = .error Fault.outOfFuel ∨
      ∃ p k, spawnEnemy rnd maze width height px py fuel calls = .ok (p, k) ∧
        isOpen maze p ∧ p ≠ (px, py) := by
  intro fuel
  induction fuel with
  | zero =>
    intro calls
    left
    rfl
  | succ n ih =>
    intro calls
    unfold spawnEnemy
    simp only
    have hex : (rnd calls : Int).tmod width = (rnd calls : Int) % width :=
      Int.tmod_eq_emod (by omega) (by omega)
    have hey : (rnd (calls + 1) : Int).tmod height = (rnd (calls + 1) : Int) % height :=
      Int.tmod_eq_emod (by omega) (by omega)
    have h1 := Int.emod_nonneg (rnd calls : Int) (by omega : width ≠ 0)
    have h2 := Int.emod_lt_of_pos (rnd calls : Int) hwpos
    have h3 := Int.emod_nonneg (rnd (calls + 1) : Int) (by omega : height ≠ 0)
    have h4 := Int.emod_lt_of_pos (rnd (calls + 1) : Int) hhpos
    rw [hex, hey]
    obtain ⟨c, hc⟩ := cellAt_some_of_rect hg ((rnd calls : Int) % width)
      ((rnd (calls + 1) : Int) % height) h1 (by omega) h3 (by omega)
    rw [hc]
    simp only
    by_cases hcond : c ≠ ' ' ∨ ((rnd calls : Int) % width = px ∧ (rnd (calls + 1) : Int) % height = py)
    · rw [if_pos hcond]
      exact ih (calls + 2)
    · rw [if_neg hcond]
      right
      refine ⟨_, _, rfl, ?_, ?_⟩
      · show cellAt maze _ _ = some ' '
        rw [hc]
        have : c = ' ' := by
          by_contra hne
          exact hcond (Or.inl hne)
        rw [this]
      · intro heq
        exact hcond (Or.inr ⟨congrArg Prod.fst heq, congrArg Prod.snd heq⟩)

theorem spawnEnemies_cases (rnd : Nat → Nat) (maze : Grid) (w h : Nat)
    (width height px py : Int) (fuel : Nat)
    (hg : Rect maze w h) (hw : width = w) (hh : height = h) (hwpos : 0 < width)
    (hhpos : 0 < height) :
    ∀ (n calls : Nat) (acc : List Pos),
      spawnEnemies rnd maze width height px py fuel n calls acc = .error Fault.outOfFuel ∨
      ∃ es k, spawnEnemies rnd maze width height px py fuel n calls acc = .ok (es, k) ∧
        es.length = acc.length + n ∧
        ∀ e ∈ es, e ∈ acc ∨ (isOpen maze e ∧ e ≠ (px, py)) := by
  intro n
  induction n with
  | zero =>
    intro calls acc
    right
    exact ⟨acc, calls, rfl, rfl, fun e he => Or.inl he⟩
  | succ m ih =>
    intro calls acc
    unfold spawnEnemies
    rcases spawnEnemy_cases rnd maze w h width height px py hg hw hh hwpos hhpos fuel calls with
      herr | ⟨p, k, hok, hopen, hne⟩
    · left
      rw [herr]
    · rw [hok]
      simp only
      rcases ih k (acc ++ [p]) with herr | ⟨es, k2, hes, hlen, hall⟩
      · left
        exact herr
      · right
        refine ⟨es, k2, hes, ?_, ?_⟩
        · rw [hlen, List.length_append, List.length_singleton]
          omega
        · intro e he
          rcases hall e he with h1 | h1
          · rcases List.mem_append.mp h1 with h2 | h2
            · exact Or.inl h2
            · rw [List.mem_singleton] at h2
              rw [h2]
              exact Or.inr ⟨hopen, hne⟩
          · exact Or.inr h1

theorem rect_generateMaze (rnd : Nat → Nat) (calls : Nat) (width height : Int)
    (hw : 3 ≤ width) (hh : 3 ≤ height) :
    ∃ g k, generateMaze rnd calls (initializeMaze width height) width height = .ok (g, k) ∧
      Rect g width.toNat height.toNat := by
  obtain ⟨s, hinv, _, hgen⟩ := generateMaze_ok rnd calls width height hw hh
  exact ⟨_, _, hgen, rect_setCell (rect_setCell hinv.mazeRect _ _ _) _ _ _⟩

/-- C10: for every level of at least 1, when level setup does not run out of fuel (spawn
sampling finishes), it yields a grid of `7 + level` rows of `15 + 2 * level` cells, the
player at (1, 1), and exactly `level` enemies, each on an Open cell other than (1, 1). -/
theorem levelSetup_dimensions_player_enemies (rnd : Nat → Nat) (fuel calls : Nat) (level : Int)
    (hl : 1 ≤ level) (hfin : timedOut (levelSetup rnd fuel calls level) = false) :
    ∃ st, levelSetup rnd fuel calls level = .ok st ∧
      (st.maze.length : Int) = 7 + level ∧
      (∀ row ∈ st.maze, (row.length : Int) = 15 + 2 * level) ∧
      st.playerX = 1 ∧ st.playerY = 1 ∧
      (st.enemies.length : Int) = level ∧
      ∀ e ∈ st.enemies, cellAt st.maze e.1 e.2 = some ' ' ∧ e ≠ (1, 1) := by
  have hwv : levelWidth level = 15 + level * 2 := rfl
  have hhv : levelHeight level = 7 + level := rfl
  obtain ⟨g, k, hgen, hrect⟩ := rect_generateMaze rnd calls (levelWidth level)
    (levelHeight level) (by omega) (by omega)
  unfold levelSetup at hfin ⊢
  rw [hgen] at hfin ⊢
  simp only at hfin ⊢
  rcases spawnEnemies_cases rnd g _ _ (levelWidth level) (levelHeight level) 1 1 fuel hrect
      (by omega) (by omega) (by omega) (by omega) level.toNat k [] with
    herr | ⟨es, k2, hes, hlen, hall⟩
  · rw [herr] at hfin
    simp [timedOut] at hfin
  · rw [hes]
    refine ⟨_, rfl, ?_, ?_, rfl, rfl, ?_, ?_⟩
    · show (g.length : Int) = 7 + level
      rw [hrect.1]
      omega
    · intro row hrow
      show (row.length : Int) = 15 + 2 * level
      rw [hrect.2 row hrow]
      omega
    · show (es.length : Int) = level
      rw [hlen]
      simp only [List.length_nil, zero_add]
      omega
    · intro e he
      rcases hall e he with h1 | h1
      · simp at h1
      · exact h1

set_option maxRecDepth 100000 in
/-- Witness of C10 at level 1: the random stream that is constantly 3 samples the Open
cell (3, 3) at the first attempt. -/
theorem levelSetup_at_level_one :
    timedOut (levelSetup (fun _ => 3) 1 0 1) = false ∧
    ∃ st, levelSetup (fun _ => 3) 1 0 1 = .ok st ∧
      (st.maze.length : Int) = 7 + 1 ∧
      (∀ row ∈ st.maze, (row.length : Int) = 15 + 2 * 1) ∧
      st.playerX = 1 ∧ st.playerY = 1 ∧
      (st.enemies.length : Int) = 1 ∧
      ∀ e ∈ st.enemies, cellAt st.maze e.1 e.2 = some ' ' ∧ e ≠ (1, 1) :=
  ⟨by decide, levelSetup_dimensions_player_enemies (fun _ => 3) 1 0 1 (by decide) (by decide)⟩

theorem levelSetup_cases (rnd : Nat → Nat) (fuel calls : Nat) (level : Int) (hl : 1 ≤ level) :
    levelSetup rnd fuel calls level = .error Fault.outOfFuel ∨
    ∃ st, levelSetup rnd fuel calls level = .ok st ∧
      Rect st.maze (levelWidth level).toNat (levelHeight level).toNat ∧
      st.playerX = 1 ∧ st.playerY = 1 ∧ cellAt st.maze 1 1 = some ' ' ∧
      st.enemies.length = level.toNat ∧
      ∀ e ∈ st.enemies, cellAt st.maze e.1 e.2 = some ' ' ∧ e ≠ (1, 1) := by
  have hwv : levelWidth level = 15 + level * 2 := rfl
  have hhv : levelHeight level = 7 + level := rfl
  obtain ⟨s, hinv, _, hgen⟩ := generateMaze_ok rnd calls (levelWidth level) (levelHeight level)
    (by omega) (by omega)
  have hrect : Rect (setCell (setCell s.maze 1 1 ' ') (levelWidth level - 2)
      (levelHeight level - 2) 'X') (levelWidth level).toNat (levelHeight level).toNat :=
    rect_setCell (rect_setCell hinv.mazeRect _ _ _) _ _ _
  have hstart : cellAt (setCell (setCell s.maze 1 1 ' ') (levelWidth level - 2)
      (levelHeight level - 2) 'X') 1 1 = some ' ' := by
    have hne : ¬ ((1 : Int) = levelWidth level - 2 ∧ (1 : Int) = levelHeight level - 2) := by
      omega
    rw [cellAt_final _ _ s hinv (by omega) (by omega), if_neg hne]
    exact carveInv_odd_open _ _ s hinv 1 1 (by omega) (by omega) (by decide) (by decide)
  unfold levelSetup
  rw [hgen]
  simp only
  rcases spawnEnemies_cases rnd _ _ _ (levelWidth level) (levelHeight level) 1 1 fuel hrect
      (by omega) (by omega) (by omega) (by omega) level.toNat s.calls [] with
    herr | ⟨es, k2, hes, hlen, hall⟩
  · left
    rw [herr]
  · right
    rw [hes]
    refine ⟨_, rfl, hrect, rfl, rfl, hstart, ?_, ?_⟩
    · show es.length = level.toNat
      rw [hlen]
      simp
    · intro e he
      rcases hall e he with h1 | h1
      · simp at h1
      · exact h1

set_option maxRecDepth 100000 in
/-- C11 (counterexample): at level 3 with the random stream that is constantly 3, spawn
sampling finishes at once and all three enemies are on the cell (3, 3). -/
theorem spawn_shares_cell_at_level_three :
    Except.map (fun st => st.enemies) (levelSetup (fun _ => 3) 1 0 3)
        = .ok [(3, 3), (3, 3), (3, 3)] ∧
      ¬ List.Nodup [((3 : Int), (3 : Int)), (3, 3), (3, 3)] := by
  decide

/-- C11 (amended): for every level of at least 1, when spawn sampling finishes, every
spawned enemy is on an Open cell other than the player's start cell (1, 1), the only
conditions the sampling loop retries on; the enemies are pairwise distinct at level 1,
where there is a single one. -/
theorem spawn_open_and_off_start (rnd : Nat → Nat) (fuel calls : Nat) (level : Int)
    (hl : 1 ≤ level) (hfin : timedOut (levelSetup rnd fuel calls level) = false) :
    ∃ st, levelSetup rnd fuel calls level = .ok st ∧
      (∀ e ∈ st.enemies, cellAt st.maze e.1 e.2 = some ' ' ∧ e ≠ (st.playerX, st.playerY)) ∧
      (level = 1 → st.enemies.Nodup) := by
  rcases levelSetup_cases rnd fuel calls level hl with herr | ⟨st, hst, _, hx, hy, _, hlen, hall⟩
  · rw [herr] at hfin
    simp [timedOut] at hfin
  · refine ⟨st, hst, ?_, ?_⟩
    · rw [hx, hy]
      exact hall
    · intro h1
      rw [h1] at hlen
      have h2 : st.enemies.length = 1 := hlen
      match hm : st.enemies, h2 with
      | [a], _ => exact List.nodup_singleton a

set_option maxRecDepth 100000 in
/-- Witness of C11 (amended) at level 1 with the random stream that is constantly 3. -/
theorem spawn_open_and_off_start_at_level_one :
    timedOut (levelSetup (fun _ => 3) 1 0 1) = false ∧
    ∃ st, levelSetup (fun _ => 3) 1 0 1 = .ok st ∧
      (∀ e ∈ st.enemies, cellAt st.maze e.1 e.2 = some ' ' ∧ e ≠ (st.playerX, st.playerY)) ∧
      ((1 : Int) = 1 → st.enemies.Nodup) :=
  ⟨by decide, spawn_open_and_off_start (fun _ => 3) 1 0 1 (by decide) (by decide)⟩

set_option maxRecDepth 100000 in
/-- C12 (evaluated at the failing input): at level 1, with a random stream whose spawn
sample is the cell (1, 7) of the bottom row, the enemy is spawned there, and the first
movement command makes `moveEnemies` read `maze[8][1]`, outside the 8 rows of the grid. -/
theorem moveEnemies_reads_below_the_grid :
    Except.map (fun st => st.enemies) (levelSetup (fun k => if k % 2 = 1 then 1 else 7) 1 0 1)
        = .ok [(1, 7)] ∧
      Except.map (fun st => cellAt st.maze 1 8)
          (levelSetup (fun k => if k % 2 = 1 then 1 else 7) 1 0 1) = .ok none ∧
      main (fun k => if k % 2 = 1 then 1 else 7) 1 ['d'] = .error Fault.outOfBounds := by
  decide

/-! ## The game loop -/

theorem validMoves_ok_spec (g : Grid) (px py ex ey : Int) :
    ∀ (ds : List (Int × Int)) (moves : List Pos), validMoves g px py ex ey ds = .ok moves →
      (∀ m ∈ moves, (∃ d ∈ ds, m = (ex + d.1, ey + d.2)) ∧ isFree g m ∧ m ≠ (px, py)) ∧
      (moves = [] → ∀ d ∈ ds, cellAt g (ex + d.1) (ey + d.2) = some '|' ∨
        (ex + d.1 = px ∧ ey + d.2 = py)) := by
  intro ds
  induction ds with
  | nil =>
    intro moves h
    unfold validMoves at h
    cases h
    exact ⟨by simp, by simp⟩
  | cons d t ih =>
    intro moves h
    unfold validMoves at h
    cases hc : cellAt g (ex + d.1) (ey + d.2) with
    | none =>
      rw [hc] at h
      cases h
    | some c =>
      rw [hc] at h
      simp only at h
      cases hrest : validMoves g px py ex ey t with
      | error e =>
        rw [hrest] at h
        cases h
      | ok rest =>
        rw [hrest] at h
        simp only at h
        obtain ⟨ih1, ih2⟩ := ih rest hrest
        by_cases hcond : c ≠ '|' ∧ ¬ (ex + d.1 = px ∧ ey + d.2 = py)
        · rw [if_pos hcond] at h
          cases h
          refine ⟨?_, by simp⟩
          intro m hm
          rcases List.mem_cons.mp hm with rfl | hm
          · refine ⟨⟨d, List.mem_cons_self _ _, rfl⟩, ⟨c, hc, hcond.1⟩, ?_⟩
            intro heq
            exact hcond.2 ⟨congrArg Prod.fst heq, congrArg Prod.snd heq⟩
          · obtain ⟨⟨e, he, hme⟩, h2⟩ := ih1 m hm
            exact ⟨⟨e, List.mem_cons_of_mem _ he, hme⟩, h2⟩
        · rw [if_neg hcond] at h
          cases h
          refine ⟨?_, ?_⟩
          · intro m hm
            obtain ⟨⟨e, he, hme⟩, h2⟩ := ih1 m hm
            exact ⟨⟨e, List.mem_cons_of_mem _ he, hme⟩, h2⟩
          · intro hnil e he
            rcases List.mem_cons.mp he with rfl | he
            · by_cases hw : c = '|'
              · left
                rw [hc, hw]
              · right
                by_contra hne
                exact hcond ⟨hw, hne⟩
            · exact ih2 hnil e he

/-- What `moveEnemies` returns: a reported collision comes from an enemy that was on the
player's cell with all four neighbouring cells Wall; without a reported collision no enemy
is on the player's cell afterwards. -/
theorem moveEnemies_hit_spec (rnd : Nat → Nat) (g : Grid) (px py : Int) :
    ∀ (enemies : List Pos) (calls : Nat) (es : List Pos) (hit : Bool) (k : Nat),
      moveEnemies rnd g px py calls enemies = .ok (es, hit, k) →
      (hit = true → (px, py) ∈ enemies ∧
        ∀ d ∈ MOVES, cellAt g (px + d.1) (py + d.2) = some '|') ∧
      (hit = false → ∀ e ∈ es, e ≠ (px, py)) := by
  intro enemies
  induction enemies with
  | nil =>
    intro calls es hit k h
    unfold moveEnemies at h
    cases h
    exact ⟨by simp, by simp⟩
  | cons e rest ih =>
    intro calls es hit k h
    obtain ⟨ex, ey⟩ := e
    unfold moveEnemies at h
    cases hm : validMoves g px py ex ey MOVES with
    | error err =>
      rw [hm] at h
      cases h
    | ok moves =>
      rw [hm] at h
      simp only at h
      obtain ⟨hv1, hv2⟩ := validMoves_ok_spec g px py ex ey MOVES moves hm
      have hnew : ∀ e1 : Pos,
          e1 = (if moves.isEmpty then (ex, ey)
            else moves.getD (rnd calls % moves.length) (ex, ey)) →
          e1 = (px, py) → (ex, ey) = (px, py) ∧ moves = [] := by
        intro e1 he1 heq
        cases hmv : moves with
        | nil =>
          rw [hmv] at he1
          simp only [List.isEmpty_nil, if_true] at he1
          rw [← he1, heq]
          exact ⟨rfl, rfl⟩
        | cons a t =>
          exfalso
          have hlt : rnd calls % moves.length < moves.length :=
            Nat.mod_lt _ (by rw [hmv]; simp)
          have hnote : moves.isEmpty = false := by rw [hmv]; rfl
          rw [hnote] at he1
          simp only [Bool.false_eq_true, if_false] at he1
          rw [List.getD_eq_getElem _ _ hlt] at he1
          have hmem : e1 ∈ moves := by
            rw [he1]
            exact List.getElem_mem hlt
          exact (hv1 e1 hmem).2.2 heq
      generalize hE : (if moves.isEmpty then (ex, ey)
        else moves.getD (rnd calls % moves.length) (ex, ey)) = e1 at h
      generalize (if moves.isEmpty then calls else calls + 1) = calls1 at h
      by_cases hhit : e1.1 = px ∧ e1.2 = py
      · rw [if_pos hhit] at h
        cases h
        have he1 : e1 = (px, py) := Prod.ext hhit.1 hhit.2
        obtain ⟨hpos, hnil⟩ := hnew e1 hE.symm he1
        refine ⟨?_, by simp⟩
        intro _
        refine ⟨by rw [hpos]; exact List.mem_cons_self _ _, ?_⟩
        intro d hd
        obtain ⟨hx, hy⟩ := Prod.mk.inj hpos
        rcases hv2 hnil d hd with hw | hw
        · rw [← hx, ← hy]
          exact hw
        · exfalso
          rcases (mem_MOVES d).mp hd with rfl | rfl | rfl | rfl <;> simp only at hw <;> omega
      · rw [if_neg hhit] at h
        cases hr : moveEnemies rnd g px py calls1 rest with
        | error err =>
          rw [hr] at h
          cases h
        | ok r =>
          obtain ⟨rest1, hit1, calls2⟩ := r
          rw [hr] at h
          simp only at h
          obtain ⟨ih1, ih2⟩ := ih calls1 rest1 hit1 calls2 hr
          cases h
          refine ⟨?_, ?_⟩
          · intro ht
            exact ⟨List.mem_cons_of_mem _ (ih1 ht).1, (ih1 ht).2⟩
          · intro hf a ha
            rcases List.mem_cons.mp ha with rfl | ha
            · intro heq
              exact hhit ⟨congrArg Prod.fst heq, congrArg Prod.snd heq⟩
            · exact ih2 hf a ha

theorem moveTarget_adjacent (px py : Int) (input : Char) (t : Pos)
    (h : moveTarget px py input = some t) : adjacent (px, py) t := by
  unfold moveTarget at h
  unfold adjacent
  split_ifs at h <;> cases h <;> simp

theorem movePlayer_ok_spec (g : Grid) (px py : Int) (input : Char) (x y : Int)
    (h : movePlayer g px py input = .ok (x, y)) :
    (x, y) = (px, py) ∨ (adjacent (px, py) (x, y) ∧ isFree g (x, y)) := by
  unfold movePlayer at h
  cases ht : moveTarget px py input with
  | none =>
    rw [ht] at h
    cases h
    exact Or.inl rfl
  | some t =>
    obtain ⟨nx, ny⟩ := t
    rw [ht] at h
    simp only at h
    cases hc : cellAt g nx ny with
    | none =>
      rw [hc] at h
      cases h
    | some c =>
      rw [hc] at h
      simp only at h
      by_cases hw : c ≠ '|'
      · rw [if_pos hw] at h
        cases h
        exact Or.inr ⟨moveTarget_adjacent px py input _ ht, c, hc, hw⟩
      · rw [if_neg hw] at h
        cases h
        exact Or.inl rfl

theorem attackEnemy_subset (px py : Int) (enemies : List Pos) :
    ∀ e ∈ (attackEnemy px py enemies).1, e ∈ enemies := by
  obtain ⟨_, h2, h3⟩ := attackFrom_spec px py enemies MOVES
  intro e he
  unfold attackEnemy at he
  cases hb : (attackFrom px py enemies MOVES).2 with
  | false =>
    rw [h3 hb] at he
    exact he
  | true =>
    obtain ⟨d, _, _, heq⟩ := h2 hb
    rw [heq] at he
    exact List.mem_of_mem_erase he

theorem adjacent_symm_move (a b : Pos) (h : adjacent a b) :
    ∃ d ∈ MOVES, a = (b.1 + d.1, b.2 + d.2) := by
  apply (adjacent_iff_move b a).mp
  unfold adjacent at h ⊢
  omega

/-- After a move of the player from a cell that is not Wall and holds no enemy,
`moveEnemies` reports no collision and leaves no enemy on the player's cell. -/
theorem moveEnemies_after_move (rnd : Nat → Nat) (s : Session) (input : Char) (x y : Int)
    (es : List Pos) (hit : Bool) (k : Nat) (hinv : PlayInv s)
    (hm : movePlayer s.maze s.playerX s.playerY input = .ok (x, y))
    (hme : moveEnemies rnd s.maze x y s.calls s.enemies = .ok (es, hit, k)) :
    hit = false ∧ ∀ e ∈ es, e ≠ (x, y) := by
  obtain ⟨_, _, hfree, hen⟩ := hinv
  have hmove := movePlayer_ok_spec _ _ _ _ _ _ hm
  obtain ⟨hs1, hs2⟩ := moveEnemies_hit_spec rnd s.maze x y s.enemies s.calls es hit k hme
  have hnohit : hit = false := by
    cases hhit : hit with
    | false => rfl
    | true =>
      exfalso
      obtain ⟨hmem, hwalls⟩ := hs1 hhit
      rcases hmove with heq | ⟨hadj, _⟩
      · exact hen (x, y) hmem heq
      · obtain ⟨d, hd, hpd⟩ := adjacent_symm_move _ _ hadj
        obtain ⟨c0, hc0, hc0w⟩ := hfree
        simp only at hpd hc0
        obtain ⟨hpx, hpy⟩ := Prod.mk.inj hpd
        rw [hpx, hpy, hwalls d hd] at hc0
        exact hc0w (Option.some.inj hc0).symm
  exact ⟨hnohit, hs2 hnohit⟩

/-- One pass through the inner loop of `main` from a state that satisfies `PlayInv`. -/
theorem playStep_spec (rnd : Nat → Nat) (s : Session) (input : Char) (s1 : Session)
    (o : Outcome) (hinv : PlayInv s) (h : playStep rnd s input = .ok (s1, o)) :
    o ≠ Outcome.gameOver ∧
    (o = Outcome.quit ↔ input = 'q') ∧
    (o = Outcome.quit → s1 = { s with gameRunning := false }) ∧
    (o = Outcome.playing → PlayInv s1 ∧ s1.level = s.level ∧ s1.gameRunning = s.gameRunning) ∧
    (o = Outcome.levelComplete → input ≠ 'q' ∧ input ≠ 'f' ∧ s1.level = s.level + 1 ∧
      cellAt s.maze s1.playerX s1.playerY = some 'X') := by
  have hinv0 := hinv
  obtain ⟨hlev, hrect, hfree, hen⟩ := hinv
  unfold playStep at h
  by_cases hq : input = 'q'
  · rw [if_pos hq] at h
    cases h
    refine ⟨by decide, by simp [hq], fun _ => rfl, by simp, by simp⟩
  · rw [if_neg hq] at h
    by_cases hf : input = 'f'
    · rw [if_pos hf] at h
      cases h
      refine ⟨by decide, by simp [hq], by simp, ?_, by simp⟩
      intro _
      refine ⟨⟨hlev, hrect, hfree, ?_⟩, rfl, rfl⟩
      intro e he
      exact hen e (attackEnemy_subset _ _ _ e he)
    · rw [if_neg hf] at h
      cases hm : movePlayer s.maze s.playerX s.playerY input with
      | error e =>
        rw [hm] at h
        cases h
      | ok p =>
        obtain ⟨x, y⟩ := p
        rw [hm] at h
        simp only at h
        have hmove := movePlayer_ok_spec _ _ _ _ _ _ hm
        have hfree1 : isFree s.maze (x, y) := by
          rcases hmove with heq | ⟨_, hfr⟩
          · rw [heq]
            exact hfree
          · exact hfr
        cases hc : cellAt s.maze x y with
        | none =>
          rw [hc] at h
          cases h
        | some c =>
          rw [hc] at h
          simp only at h
          by_cases hx : c = 'X'
          · rw [if_pos hx] at h
            cases h
            refine ⟨by decide, by simp [hq], by simp, by simp, ?_⟩
            intro _
            refine ⟨hq, hf, rfl, ?_⟩
            show cellAt s.maze x y = some 'X'
            rw [hc, hx]
          · rw [if_neg hx] at h
            cases hme : moveEnemies rnd s.maze x y s.calls s.enemies with
            | error e =>
              rw [hme] at h
              cases h
            | ok r =>
              obtain ⟨es, hit, k⟩ := r
              rw [hme] at h
              simp only at h
              obtain ⟨hnohit, hs2⟩ := moveEnemies_after_move rnd s input x y es hit k hinv0 hm hme
              rw [hnohit] at h
              simp only [Bool.false_eq_true, if_false] at h
              cases h
              refine ⟨by decide, by simp [hq], by simp, ?_, by simp⟩
              intro _
              exact ⟨⟨hlev, hrect, hfree1, hs2⟩, rfl, rfl⟩

theorem levelSetup_playInv (rnd : Nat → Nat) (fuel calls : Nat) (level : Int) (st : Level)
    (hl : 1 ≤ level) (hst : levelSetup rnd fuel calls level = .ok st) :
    PlayInv (startLevel level st) := by
  rcases levelSetup_cases rnd fuel calls level hl with herr | ⟨st1, hst1, hrect, hx, hy, hopen, _, hall⟩
  · rw [herr] at hst
    cases hst
  · rw [hst1] at hst
    cases hst
    refine ⟨hl, hrect, ?_, ?_⟩
    · show isFree st.maze (st.playerX, st.playerY)
      rw [hx, hy]
      exact ⟨' ', hopen, by decide⟩
    · intro e he
      show e ≠ (st.playerX, st.playerY)
      rw [hx, hy]
      exact (hall e he).2

theorem runFrom_playInv (rnd : Nat → Nat) (fuel : Nat) :
    ∀ (inputs : List Char) (s s1 : Session), PlayInv s →
      runFrom rnd fuel s inputs = .ok s1 → PlayInv s1 := by
  intro inputs
  induction inputs with
  | nil =>
    intro s s1 hinv h
    unfold runFrom at h
    cases h
    exact hinv
  | cons input rest ih =>
    intro s s1 hinv h
    unfold runFrom at h
    cases hp : playStep rnd s input with
    | error e =>
      rw [hp] at h
      cases h
    | ok r =>
      obtain ⟨s2, o⟩ := r
      obtain ⟨h1, _, h3, h4, h5⟩ := playStep_spec rnd s input s2 o hinv hp
      rw [hp] at h
      cases o with
      | playing =>
        simp only at h
        exact ih s2 s1 (h4 rfl).1 h
      | quit =>
        simp only at h
        cases h
        rw [h3 rfl]
        exact hinv
      | levelComplete =>
        simp only at h
        cases hls : levelSetup rnd fuel s2.calls s2.level with
        | error e =>
          rw [hls] at h
          cases h
        | ok st =>
          rw [hls] at h
          simp only at h
          have hl2 : 1 ≤ s2.level := by
            rw [(h5 rfl).2.2.1]
            have := hinv.1
            omega
          exact ih _ s1 (levelSetup_playInv rnd fuel s2.calls s2.level st hl2 hls) h
      | gameOver => exact absurd rfl h1

/-- C13: in every state the game reaches from level setup at a level of at least 1, along
any input and any random stream, the player's position is inside the grid of the level and
the cell there is not Wall. -/
theorem player_on_free_cell_in_every_state (rnd : Nat → Nat) (fuel calls : Nat) (level : Int)
    (st : Level) (inputs : List Char) (s : Session) (hl : 1 ≤ level)
    (hset : levelSetup rnd fuel calls level = .ok st)
    (hrun : runFrom rnd fuel (startLevel level st) inputs = .ok s) :
    (0 ≤ s.playerX ∧ s.playerX < levelWidth s.level ∧
      0 ≤ s.playerY ∧ s.playerY < levelHeight s.level) ∧
    ∃ c, cellAt s.maze s.playerX s.playerY = some c ∧ c ≠ '|' := by
  obtain ⟨_, hrect, hfree, _⟩ := runFrom_playInv rnd fuel inputs _ s
    (levelSetup_playInv rnd fuel calls level st hl hset) hrun
  refine ⟨?_, hfree⟩
  obtain ⟨c, hc, _⟩ := hfree
  have hsome : (cellAt s.maze s.playerX s.playerY).isSome = true := by
    simp only at hc
    rw [hc]
    rfl
  have := (cellAt_isSome_of_rect hrect s.playerX s.playerY).mp hsome
  omega

set_option maxRecDepth 100000 in
/-- Witness of C13: level 1 with the random stream that is constantly 3 and the input
`d s a f w`. -/
theorem player_on_free_cell_example :
    ∃ st s, levelSetup (fun _ => 3) 1 0 1 = .ok st ∧
      runFrom (fun _ => 3) 1 (startLevel 1 st) ['d', 's', 'a', 'f', 'w'] = .ok s ∧
      (0 ≤ s.playerX ∧ s.playerX < levelWidth s.level ∧
        0 ≤ s.playerY ∧ s.playerY < levelHeight s.level) ∧
      ∃ c, cellAt s.maze s.playerX s.playerY = some c ∧ c ≠ '|' :=
  have h1 : levelSetup (fun _ => 3) 1 0 1
      = .ok ((levelSetup (fun _ => 3) 1 0 1).toOption.getD ⟨[], 0, 0, [], 0⟩) := by decide
  have h2 : runFrom (fun _ => 3) 1
      (startLevel 1 ((levelSetup (fun _ => 3) 1 0 1).toOption.getD ⟨[], 0, 0, [], 0⟩))
      ['d', 's', 'a', 'f', 'w']
      = .ok ((main (fun _ => 3) 1 ['d', 's', 'a', 'f', 'w']).toOption.getD
          ⟨0, false, [], 0, 0, [], 0⟩) := by decide
  ⟨_, _, h1, h2, player_on_free_cell_in_every_state (fun _ => 3) 1 0 1 _ _ _ (by decide) h1 h2⟩

/-- C14: in one pass through the inner loop, the level never decreases; with a command
other than quit and attack, if the player's cell after `movePlayer` is Exit then the level
grows by exactly 1, the enemies and the random stream are untouched (`moveEnemies` is not
called), the inner loop is left, and the game continues with level setup at the new
level; in every other pass the level is unchanged. -/
theorem level_grows_only_on_exit (rnd : Nat → Nat) (s : Session) (input : Char) (s1 : Session)
    (o : Outcome) (h : playStep rnd s input = .ok (s1, o)) :
    s.level ≤ s1.level ∧
    (input ≠ 'q' → input ≠ 'f' → cellAt s.maze s1.playerX s1.playerY = some 'X' →
      o = Outcome.levelComplete ∧ s1.level = s.level + 1 ∧ s1.enemies = s.enemies ∧
      s1.calls = s.calls ∧ s1.maze = s.maze ∧ s1.gameRunning = s.gameRunning ∧
      ∀ (fuel : Nat) (rest : List Char),
        runFrom rnd fuel s (input :: rest) =
          match levelSetup rnd fuel s1.calls s1.level with
          | .error e => .error e
          | .ok st => runFrom rnd fuel (startLevel s1.level st) rest) ∧
    (¬ (input ≠ 'q' ∧ input ≠ 'f' ∧ cellAt s.maze s1.playerX s1.playerY = some 'X') →
      s1.level = s.level ∧ o ≠ Outcome.levelComplete) := by
  have hrun : ∀ (fuel : Nat) (rest : List Char), o = Outcome.levelComplete →
      runFrom rnd fuel s (input :: rest) =
        match levelSetup rnd fuel s1.calls s1.level with
        | .error e => .error e
        | .ok st => runFrom rnd fuel (startLevel s1.level st) rest := by
    intro fuel rest ho
    rw [ho] at h
    conv_lhs => unfold runFrom
    rw [h]
  unfold playStep at h
  by_cases hq : input = 'q'
  · rw [if_pos hq] at h
    cases h
    refine ⟨le_refl _, fun h1 => absurd hq h1, fun _ => ⟨rfl, by decide⟩⟩
  · rw [if_neg hq] at h
    by_cases hf : input = 'f'
    · rw [if_pos hf] at h
      cases h
      refine ⟨le_refl _, fun _ h1 => absurd hf h1, fun _ => ⟨rfl, by decide⟩⟩
    · rw [if_neg hf] at h
      cases hm : movePlayer s.maze s.playerX s.playerY input with
      | error e =>
        rw [hm] at h
        cases h
      | ok p =>
        obtain ⟨x, y⟩ := p
        rw [hm] at h
        simp only at h
        cases hc : cellAt s.maze x y with
        | none =>
          rw [hc] at h
          cases h
        | some c =>
          rw [hc] at h
          simp only at h
          by_cases hx : c = 'X'
          · rw [if_pos hx] at h
            cases h
            refine ⟨by simp, ?_, ?_⟩
            · intro _ _ _
              exact ⟨rfl, rfl, rfl, rfl, rfl, rfl, fun fuel rest => hrun fuel rest rfl⟩
            · intro hn
              exfalso
              apply hn
              refine ⟨hq, hf, ?_⟩
              show cellAt s.maze x y = some 'X'
              rw [hc, hx]
          · rw [if_neg hx] at h
            cases hme : moveEnemies rnd s.maze x y s.calls s.enemies with
            | error e =>
              rw [hme] at h
              cases h
            | ok r =>
              obtain ⟨es, hit, k⟩ := r
              rw [hme] at h
              simp only at h
              have hnx : cellAt s.maze x y ≠ some 'X' := by
                rw [hc]
                intro hcx
                exact hx (Option.some.inj hcx)
              cases hit with
              | true =>
                simp only [if_true] at h
                cases h
                exact ⟨le_refl _, fun _ _ h3 => absurd h3 hnx, fun _ => ⟨rfl, by decide⟩⟩
              | false =>
                simp only [Bool.false_eq_true, if_false] at h
                cases h
                exact ⟨le_refl _, fun _ _ h3 => absurd h3 hnx, fun _ => ⟨rfl, by decide⟩⟩

/-- Witness of C14: the player at (1,1) of a 4 by 3 grid steps right onto the Exit. -/
theorem level_grows_on_exit_example :
    playStep (fun _ => 0)
        ⟨1, true, [['|', '|', '|', '|'], ['|', ' ', 'X', '|'], ['|', '|', '|', '|']], 1, 1,
          [(1, 1)], 5⟩ 'd'
      = .ok (⟨2, true, [['|', '|', '|', '|'], ['|', ' ', 'X', '|'], ['|', '|', '|', '|']], 2, 1,
          [(1, 1)], 5⟩, Outcome.levelComplete) ∧
    (1 : Int) ≤ 2 :=
  have h : playStep (fun _ => 0)
        ⟨1, true, [['|', '|', '|', '|'], ['|', ' ', 'X', '|'], ['|', '|', '|', '|']], 1, 1,
          [(1, 1)], 5⟩ 'd'
      = .ok (⟨2, true, [['|', '|', '|', '|'], ['|', ' ', 'X', '|'], ['|', '|', '|', '|']], 2, 1,
          [(1, 1)], 5⟩, Outcome.levelComplete) := by decide
  ⟨h, (level_grows_only_on_exit _ _ _ _ _ h).1⟩

/-- C17: one pass through the inner loop with the attack command `'f'` goes on with the
next pass and leaves the grid, the player's position, the level, the running flag and the
random stream as they were (`moveEnemies` is not called); the enemy list is the one
`attackEnemy` returns: the old list, or the old list with one element removed. -/
theorem attack_takes_no_tick (rnd : Nat → Nat) (s : Session) :
    ∃ s1, playStep rnd s 'f' = .ok (s1, Outcome.playing) ∧
      s1.maze = s.maze ∧ s1.playerX = s.playerX ∧ s1.playerY = s.playerY ∧
      s1.level = s.level ∧ s1.gameRunning = s.gameRunning ∧ s1.calls = s.calls ∧
      s1.enemies = (attackEnemy s.playerX s.playerY s.enemies).1 ∧
      (s1.enemies = s.enemies ∨
        ∃ before e after, s.enemies = before ++ e :: after ∧ s1.enemies = before ++ after) := by
  refine ⟨{ s with enemies := (attackEnemy s.playerX s.playerY s.enemies).1 }, ?_, rfl, rfl, rfl,
    rfl, rfl, rfl, rfl, ?_⟩
  · unfold playStep
    rw [if_neg (by decide), if_pos rfl]
  · show (attackEnemy s.playerX s.playerY s.enemies).1 = s.enemies ∨ _
    obtain ⟨_, h2, h3⟩ := attackFrom_spec s.playerX s.playerY s.enemies MOVES
    unfold attackEnemy
    cases hb : (attackFrom s.playerX s.playerY s.enemies MOVES).2 with
    | false => exact Or.inl (h3 hb)
    | true =>
      right
      obtain ⟨d, _, hin, heq⟩ := h2 hb
      obtain ⟨l1, l2, _, hsplit, herase⟩ := List.exists_erase_eq hin
      exact ⟨l1, _, l2, hsplit, by rw [heq, herase]⟩

theorem moveEnemies_total (rnd : Nat → Nat) (g : Grid) (w h : Nat) (px py : Int)
    (hg : Rect g w h) :
    ∀ (enemies : List Pos) (calls : Nat),
      (∀ e ∈ enemies, (0 < e.1 ∧ e.1 < (w : Int) - 1) ∧ (0 < e.2 ∧ e.2 < (h : Int) - 1)) →
      ∃ r, moveEnemies rnd g px py calls enemies = .ok r := by
  intro enemies
  induction enemies with
  | nil =>
    intro calls _
    exact ⟨_, rfl⟩
  | cons e rest ih =>
    intro calls hen
    obtain ⟨ex, ey⟩ := e
    obtain ⟨hx, hy⟩ := hen (ex, ey) (List.mem_cons_self _ _)
    simp only at hx hy
    obtain ⟨moves, hmoves, _⟩ :=
      validMoves_spec g w h px py ex ey hg hx hy MOVES (fun d hd => hd)
    unfold moveEnemies
    simp only [hmoves]
    generalize (if moves.isEmpty then (ex, ey)
      else moves.getD (rnd calls % moves.length) (ex, ey)) = e1
    generalize (if moves.isEmpty then calls else calls + 1) = calls1
    by_cases hhit : e1.1 = px ∧ e1.2 = py
    · rw [if_pos hhit]
      exact ⟨_, rfl⟩
    · rw [if_neg hhit]
      obtain ⟨r, hr⟩ := ih calls1 (fun a ha => hen a (List.mem_cons_of_mem _ ha))
      rw [hr]
      exact ⟨_, rfl⟩

/-- C18 (counterexample): in a 3 by 3 grid with the player at (1, 1) and one enemy on the
bottom row at (1, 2), no enemy is on the player's cell, yet `moveEnemies` does not return
`false`: it reads `maze[3][1]`, outside the three rows. -/
theorem moveEnemies_faults_for_enemy_on_bottom_row :
    (∀ e ∈ [((1 : Int), (2 : Int))], e ≠ (1, 1)) ∧
    moveEnemies (fun _ => 0) [['|', '|', '|'], ['|', ' ', '|'], ['|', ' ', '|']] 1 1 0 [(1, 2)]
      = .error Fault.outOfBounds := by
  decide

/-- C18 (amended): in a grid of `w` by `h` cells with every enemy strictly inside,
`moveEnemies` returns a result; if no enemy was on the player's cell then it returns
`false` and no enemy is on the player's cell afterwards; whenever it returns `false` no
enemy is on the player's cell afterwards; and when it returns `true` an enemy was already
on the player's cell and all four cells next to that cell are Wall. -/
theorem moveEnemies_collision_needs_walled_in_enemy (rnd : Nat → Nat) (g : Grid) (w h : Nat)
    (px py : Int) (calls : Nat) (enemies : List Pos) (hg : Rect g w h)
    (hen : ∀ e ∈ enemies, (0 < e.1 ∧ e.1 < (w : Int) - 1) ∧ (0 < e.2 ∧ e.2 < (h : Int) - 1)) :
    ∃ es hit k, moveEnemies rnd g px py calls enemies = .ok (es, hit, k) ∧
      ((∀ e ∈ enemies, e ≠ (px, py)) → hit = false ∧ ∀ e ∈ es, e ≠ (px, py)) ∧
      (hit = false → ∀ e ∈ es, e ≠ (px, py)) ∧
      (hit = true → (px, py) ∈ enemies ∧
        ∀ c, adjacent (px, py) c → cellAt g c.1 c.2 = some '|') := by
  obtain ⟨⟨es, hit, k⟩, hme⟩ := moveEnemies_total rnd g w h px py hg enemies calls hen
  obtain ⟨h1, h2⟩ := moveEnemies_hit_spec rnd g px py enemies calls es hit k hme
  refine ⟨es, hit, k, hme, ?_, h2, ?_⟩
  · intro hnone
    have hf : hit = false := by
      cases hh : hit with
      | false => rfl
      | true => exact absurd rfl (hnone _ (h1 hh).1)
    exact ⟨hf, h2 hf⟩
  · intro ht
    refine ⟨(h1 ht).1, ?_⟩
    intro c hadj
    obtain ⟨d, hd, rfl⟩ := (adjacent_iff_move (px, py) c).mp hadj
    exact (h1 ht).2 d hd

/-- Witness of C18 (amended): one enemy at (2,1) of a 5 by 3 grid with an open middle
row, the player at (1,1); the enemy steps right to (3,1) and no collision is reported. -/
theorem moveEnemies_no_collision_example :
    Rect [['|', '|', '|', '|', '|'], ['|', ' ', ' ', ' ', '|'], ['|', '|', '|', '|', '|']] 5 3 ∧
    moveEnemies (fun _ => 0)
        [['|', '|', '|', '|', '|'], ['|', ' ', ' ', ' ', '|'], ['|', '|', '|', '|', '|']]
        1 1 0 [(2, 1)] = .ok ([(3, 1)], false, 1) ∧
    ∃ es hit k,
      moveEnemies (fun _ => 0)
        [['|', '|', '|', '|', '|'], ['|', ' ', ' ', ' ', '|'], ['|', '|', '|', '|', '|']]
        1 1 0 [(2, 1)] = .ok (es, hit, k) ∧
      ((∀ e ∈ [((2 : Int), (1 : Int))], e ≠ (1, 1)) → hit = false ∧ ∀ e ∈ es, e ≠ (1, 1)) ∧
      (hit = false → ∀ e ∈ es, e ≠ (1, 1)) ∧
      (hit = true → ((1 : Int), (1 : Int)) ∈ [((2 : Int), (1 : Int))] ∧
        ∀ c, adjacent (1, 1) c →
          cellAt [['|', '|', '|', '|', '|'], ['|', ' ', ' ', ' ', '|'], ['|', '|', '|', '|', '|']]
            c.1 c.2 = some '|') :=
  have hr : Rect [['|', '|', '|', '|', '|'], ['|', ' ', ' ', ' ', '|'],
      ['|', '|', '|', '|', '|']] 5 3 := by
    unfold Rect
    decide
  ⟨hr, by decide,
    moveEnemies_collision_needs_walled_in_enemy (fun _ => 0) _ 5 3 1 1 0 [(2, 1)] hr (by
      intro e he
      rw [List.mem_singleton] at he
      subst he
      exact ⟨by decide, by decide⟩)⟩

/-- Along every run from level setup at a level of at least 1 that makes no read outside
the grid: in the state reached no enemy is on the player's cell, and in the next pass
through the inner loop `moveEnemies` does not return `true`: the pass never ends in game
over, it ends the game only on `'q'`, it changes the level only when the player's new cell
is Exit, and otherwise play goes on at the same level with no enemy on the player's
cell. -/
theorem game_over_is_never_reached (rnd : Nat → Nat) (fuel calls : Nat) (level : Int)
    (st : Level) (inputs : List Char) (s : Session) (hl : 1 ≤ level)
    (hset : levelSetup rnd fuel calls level = .ok st)
    (hrun : runFrom rnd fuel (startLevel level st) inputs = .ok s) :
    (∀ e ∈ s.enemies, e ≠ (s.playerX, s.playerY)) ∧
    (∀ input x y es hit k, movePlayer s.maze s.playerX s.playerY input = .ok (x, y) →
      moveEnemies rnd s.maze x y s.calls s.enemies = .ok (es, hit, k) →
      hit = false ∧ ∀ e ∈ es, e ≠ (x, y)) ∧
    (∀ input s1 o, playStep rnd s input = .ok (s1, o) →
      o ≠ Outcome.gameOver ∧ (o = Outcome.quit ↔ input = 'q') ∧
      (o = Outcome.levelComplete →
        cellAt s.maze s1.playerX s1.playerY = some 'X' ∧ s1.level = s.level + 1) ∧
      (o = Outcome.playing → s1.level = s.level ∧ s1.gameRunning = s.gameRunning ∧
        ∀ e ∈ s1.enemies, e ≠ (s1.playerX, s1.playerY))) := by
  have hinv := runFrom_playInv rnd fuel inputs _ s
    (levelSetup_playInv rnd fuel calls level st hl hset) hrun
  refine ⟨hinv.2.2.2, ?_, ?_⟩
  · intro input x y es hit k hm hme
    exact moveEnemies_after_move rnd s input x y es hit k hinv hm hme
  · intro input s1 o hstep
    obtain ⟨h1, h2, _, h4, h5⟩ := playStep_spec rnd s input s1 o hinv hstep
    refine ⟨h1, h2, ?_, ?_⟩
    · intro ho
      exact ⟨(h5 ho).2.2.2, (h5 ho).2.2.1⟩
    · intro ho
      exact ⟨(h4 ho).2.1, (h4 ho).2.2, (h4 ho).1.2.2.2⟩

set_option maxRecDepth 100000 in
/-- An instance of `game_over_is_never_reached`: level 1 with the random stream that is
constantly 3 and the input `d s a f w`. -/
theorem game_over_is_never_reached_example :
    ∃ st s, levelSetup (fun _ => 3) 1 0 1 = .ok st ∧
      runFrom (fun _ => 3) 1 (startLevel 1 st) ['d', 's', 'a', 'f', 'w'] = .ok s ∧
      (∀ e ∈ s.enemies, e ≠ (s.playerX, s.playerY)) ∧
      (∀ input s1 o, playStep (fun _ => 3) s input = .ok (s1, o) → o ≠ Outcome.gameOver) :=
  have h1 : levelSetup (fun _ => 3) 1 0 1
      = .ok ((levelSetup (fun _ => 3) 1 0 1).toOption.getD ⟨[], 0, 0, [], 0⟩) := by decide
  have h2 : runFrom (fun _ => 3) 1
      (startLevel 1 ((levelSetup (fun _ => 3) 1 0 1).toOption.getD ⟨[], 0, 0, [], 0⟩))
      ['d', 's', 'a', 'f', 'w']
      = .ok ((main (fun _ => 3) 1 ['d', 's', 'a', 'f', 'w']).toOption.getD
          ⟨0, false, [], 0, 0, [], 0⟩) := by decide
  have h := game_over_is_never_reached (fun _ => 3) 1 0 1 _ _ _ (by decide) h1 h2
  ⟨_, _, h1, h2, h.1, fun input s1 o hs => (h.2.2 input s1 o hs).1⟩

set_option maxRecDepth 100000 in
/-- C19 (evaluated at the failing input): at level 1, with a random stream whose spawn
sample is the cell (1, 7) of the bottom row, the game is still running at level 1 after
the attack command `'f'`, with the enemy on (1, 7) and not on the player's cell; the next
command `'w'` ends the run neither by quit nor by reaching the Exit nor by game over, but
by the read of `maze[8][1]` outside the grid in `moveEnemies`. -/
theorem run_ends_in_read_outside_the_grid :
    Except.map (fun s => s.gameRunning) (main (fun k => if k % 2 = 1 then 1 else 7) 1 ['f'])
      = .ok true ∧
    Except.map (fun s => s.level) (main (fun k => if k % 2 = 1 then 1 else 7) 1 ['f'])
      = .ok 1 ∧
    Except.map (fun s => (s.playerX, s.playerY))
        (main (fun k => if k % 2 = 1 then 1 else 7) 1 ['f']) = .ok (1, 1) ∧
    Except.map (fun s => s.enemies) (main (fun k => if k % 2 = 1 then 1 else 7) 1 ['f'])
      = .ok [(1, 7)] ∧
    main (fun k => if k % 2 = 1 then 1 else 7) 1 ['f', 'w'] = .error Fault.outOfBounds := by
  decide

/-! ## Attack order, termination of carving, rooms -/

theorem attackFrom_find (px py : Int) (enemies : List Pos) :
    ∀ ds : List (Int × Int),
      attackFrom px py enemies ds =
        match (ds.map (fun d => (px + d.1, py + d.2))).find? (fun c => decide (c ∈ enemies)) with
        | some t => (enemies.erase t, true)
        | none => (enemies, false) := by
  intro ds
  induction ds with
  | nil => rfl
  | cons d t ih =>
    unfold attackFrom
    rw [List.map_cons, List.find?_cons]
    by_cases hmem : (px + d.1, py + d.2) ∈ enemies
    · rw [if_pos hmem]
      simp [hmem]
    · rw [if_neg hmem, ih]
      simp [hmem]

theorem moves_from (px py : Int) :
    MOVES.map (fun d => (px + d.1, py + d.2)) = neighbourCells px py := by
  unfold MOVES neighbourCells
  simp only [List.map_cons, List.map_nil]
  have e1 : px + 0 = px := by omega
  have e2 : py + 0 = py := by omega
  have e3 : py + -1 = py - 1 := by omega
  have e4 : px + -1 = px - 1 := by omega
  rw [e1, e2, e3, e4]

/-- C15: when some enemy is orthogonally adjacent to the player, `attackEnemy` removes an
enemy on the first of the cells up (y-1), down (y+1), left (x-1), right (x+1) that holds
an enemy, namely the earliest element of the list that is on that cell. -/
theorem attackEnemy_takes_first_direction (px py : Int) (enemies : List Pos)
    (h : ∃ e ∈ enemies, adjacent (px, py) e) :
    ∃ t before after,
      (neighbourCells px py).find? (fun c => decide (c ∈ enemies)) = some t ∧
      enemies = before ++ t :: after ∧ t ∉ before ∧
      attackEnemy px py enemies = (before ++ after, true) := by
  obtain ⟨e, he, hadj⟩ := h
  have hsome : ∃ t, (neighbourCells px py).find? (fun c => decide (c ∈ enemies)) = some t := by
    cases hf : (neighbourCells px py).find? (fun c => decide (c ∈ enemies)) with
    | some t => exact ⟨t, rfl⟩
    | none =>
      exfalso
      rw [List.find?_eq_none] at hf
      obtain ⟨d, hd, hed⟩ := (adjacent_iff_move (px, py) e).mp hadj
      have hin : e ∈ neighbourCells px py := by
        rw [← moves_from, List.mem_map]
        exact ⟨d, hd, hed.symm⟩
      have := hf e hin
      simp only [decide_eq_true_eq] at this
      exact this he
  obtain ⟨t, ht⟩ := hsome
  have htmem : t ∈ enemies := by
    have := List.find?_some ht
    simpa using this
  obtain ⟨l1, l2, hnot, hsplit, herase⟩ := List.exists_erase_eq htmem
  refine ⟨t, l1, l2, ht, hsplit, hnot, ?_⟩
  unfold attackEnemy
  rw [attackFrom_find, moves_from, ht]
  simp only
  rw [herase]

/-- Witness of C15: enemies below and to the right of the player at (1,1), two of them on
the cell below; the earlier of those two is removed. -/
theorem attackEnemy_takes_first_direction_example :
    (∃ e ∈ [((2 : Int), (1 : Int)), (1, 2), (0, 1), (1, 2)], adjacent (1, 1) e) ∧
    (∃ t before after,
      (neighbourCells 1 1).find? (fun c => decide (c ∈ [((2 : Int), (1 : Int)), (1, 2), (0, 1), (1, 2)]))
        = some t ∧
      [((2 : Int), (1 : Int)), (1, 2), (0, 1), (1, 2)] = before ++ t :: after ∧ t ∉ before ∧
      attackEnemy 1 1 [(2, 1), (1, 2), (0, 1), (1, 2)] = (before ++ after, true)) ∧
    attackEnemy 1 1 [(2, 1), (1, 2), (0, 1), (1, 2)] = ([(2, 1), (0, 1), (1, 2)], true) :=
  have h : ∃ e ∈ [((2 : Int), (1 : Int)), (1, 2), (0, 1), (1, 2)], adjacent (1, 1) e :=
    ⟨(2, 1), by decide, by decide⟩
  ⟨h, attackEnemy_takes_first_direction 1 1 _ h, by decide⟩

theorem carveLoop_iterate (rnd : Nat → Nat) (width height : Int) :
    ∀ (fuel : Nat) (s s1 : CarveState), carveLoop rnd width height fuel s = .ok s1 →
      ∃ m, m ≤ fuel ∧ s1 = (carveStep rnd width height)^[m] s ∧ s1.pathStack = [] ∧
        ∀ j, j < m → ((carveStep rnd width height)^[j] s).pathStack ≠ [] := by
  intro fuel
  induction fuel with
  | zero =>
    intro s s1 h
    unfold carveLoop at h
    cases hs : s.pathStack with
    | nil =>
      rw [hs] at h
      cases h
      exact ⟨0, le_refl _, rfl, hs, fun j hj => absurd hj (Nat.not_lt_zero j)⟩
    | cons a t =>
      rw [hs] at h
      cases h
  | succ k ih =>
    intro s s1 h
    unfold carveLoop at h
    cases hs : s.pathStack with
    | nil =>
      rw [hs] at h
      cases h
      exact ⟨0, Nat.zero_le _, rfl, hs, fun j hj => absurd hj (Nat.not_lt_zero j)⟩
    | cons a t =>
      rw [hs] at h
      simp only [List.isEmpty_cons, Bool.false_eq_true, if_false] at h
      obtain ⟨m, hm, heq, hnil, hbefore⟩ := ih _ s1 h
      refine ⟨m + 1, by omega, ?_, hnil, ?_⟩
      · rw [Function.iterate_succ_apply]
        exact heq
      · intro j hj
        cases j with
        | zero =>
          rw [Function.iterate_zero_apply, hs]
          simp
        | succ i =>
          rw [Function.iterate_succ_apply]
          exact hbefore i (by omega)

theorem carvePushes_spec (rnd : Nat → Nat) (width height : Int) :
    ∀ (n : Nat) (s : CarveState),
      (∀ p ∈ carvePushes rnd width height n s, cellAt s.visited p.1 p.2 = some false) ∧
      (carvePushes rnd width height n s).Nodup ∧
      ∀ x y, cellAt ((carveStep rnd width height)^[n] s).visited x y = some true ↔
        (cellAt s.visited x y = some true ∨ (x, y) ∈ carvePushes rnd width height n s) := by
  intro n
  induction n with
  | zero =>
    intro s
    refine ⟨by simp [carvePushes], by simp [carvePushes], ?_⟩
    intro x y
    simp [carvePushes]
  | succ k ih =>
    intro s
    rw [carvePushes]
    simp only [Function.iterate_succ_apply]
    obtain ⟨ih1, ih2, ih3⟩ := ih (carveStep rnd width height s)
    cases hs : s.pathStack with
    | nil =>
      have hstep : carveStep rnd width height s = s := by
        unfold carveStep
        rw [hs]
      have hp : pushedBy s (carveStep rnd width height s) = [] := by
        rw [hstep]
        unfold pushedBy
        simp
      rw [hp, List.nil_append]
      rw [hstep] at ih1 ih2 ih3
      rw [hstep]
      exact ⟨ih1, ih2, ih3⟩
    | cons a rest =>
      obtain ⟨x0, y0⟩ := a
      rcases carveStep_cases rnd width height s x0 y0 rest hs with ⟨_, heq⟩ | ⟨n0, hn, heq⟩
      · have hp : pushedBy s (carveStep rnd width height s) = [] := by
          rw [heq]
          unfold pushedBy
          rw [hs]
          simp
        rw [hp, List.nil_append]
        rw [heq] at ih1 ih2 ih3
        rw [heq]
        exact ⟨ih1, ih2, ih3⟩
      · have hp : pushedBy s (carveStep rnd width height s) = [n0] := by
          rw [heq]
          unfold pushedBy
          rw [hs]
          simp
        rw [hp, List.singleton_append]
        rw [mem_unvisitedNeighbors] at hn
        have hfalse := hn.2.2.2.2.2
        have hvis : ∀ x y, cellAt (carveStep rnd width height s).visited x y =
            if x = n0.1 ∧ y = n0.2 then some true else cellAt s.visited x y := by
          intro x y
          rw [heq]
          simp only
          rw [cellAt_setCell, hfalse]
          rfl
        refine ⟨?_, ?_, ?_⟩
        · intro p hp1
          rcases List.mem_cons.mp hp1 with rfl | hp1
          · exact hfalse
          · have := ih1 p hp1
            rw [hvis] at this
            split_ifs at this with hc
            · simp at this
            · exact this
        · rw [List.nodup_cons]
          refine ⟨?_, ih2⟩
          intro hmem
          have := ih1 n0 hmem
          rw [hvis, if_pos ⟨rfl, rfl⟩] at this
          simp at this
        · intro x y
          rw [ih3, hvis, List.mem_cons]
          by_cases hc : x = n0.1 ∧ y = n0.2
          · rw [if_pos hc]
            have : (x, y) = n0 := Prod.ext hc.1 hc.2
            simp [this]
          · rw [if_neg hc]
            have : (x, y) ≠ n0 := fun h => hc ⟨congrArg Prod.fst h, congrArg Prod.snd h⟩
            simp [this]

/-- C16: for every width and height of at least 3 and every random stream, the carving
loop of `generateMaze` reaches an empty stack after finitely many iterations `m` (and not
before), within the fuel of the model; the rooms pushed, together with the start (1, 1),
are pairwise distinct and are exactly the rooms marked visited at the end, so every room
reached was pushed and marked once. -/
theorem carving_terminates_pushing_each_room_once (rnd : Nat → Nat) (calls : Nat)
    (width height : Int) (hw : 3 ≤ width) (hh : 3 ≤ height) :
    ∃ m, m ≤ carveFuel width height ∧
      ((carveStep rnd width height)^[m]
        (carveInit calls (initializeMaze width height) width height)).pathStack = [] ∧
      (∀ j, j < m → ((carveStep rnd width height)^[j]
        (carveInit calls (initializeMaze width height) width height)).pathStack ≠ []) ∧
      carveLoop rnd width height (carveFuel width height)
          (carveInit calls (initializeMaze width height) width height)
        = .ok ((carveStep rnd width height)^[m]
          (carveInit calls (initializeMaze width height) width height)) ∧
      ((1, 1) :: carvePushes rnd width height m
        (carveInit calls (initializeMaze width height) width height)).Nodup ∧
      ∀ x y, cellAt ((carveStep rnd width height)^[m]
          (carveInit calls (initializeMaze width height) width height)).visited x y = some true ↔
        (x, y) ∈ (1, 1) :: carvePushes rnd width height m
          (carveInit calls (initializeMaze width height) width height) := by
  have hinit := carveInv_init calls width height hw hh
  have hfuel : 2 * unvisitedCount (carveInit calls (initializeMaze width height) width height).visited
      width height + (carveInit calls (initializeMaze width height) width height).pathStack.length
      ≤ carveFuel width height := by
    have := unvisitedCount_le (carveInit calls (initializeMaze width height) width height).visited
      width height
    have hl : (carveInit calls (initializeMaze width height) width height).pathStack.length = 1 := rfl
    unfold carveFuel
    omega
  obtain ⟨s1, hs1, _, _⟩ := carveLoop_ok rnd width height _ _ hinit hfuel
  obtain ⟨m, hm, heq, hnil, hbefore⟩ := carveLoop_iterate rnd width height _ _ s1 hs1
  obtain ⟨hp1, hp2, hp3⟩ := carvePushes_spec rnd width height m
    (carveInit calls (initializeMaze width height) width height)
  have hv0 : ∀ x y, cellAt (carveInit calls (initializeMaze width height) width height).visited x y
      = some true ↔ (x, y) = (1, 1) := by
    intro x y
    unfold carveInit
    simp only
    rw [cellAt_visitedInit width height hw hh]
    constructor
    · intro h
      split_ifs at h with h1 h2
      · exact Prod.ext h1.1 h1.2
      · simp at h
    · intro h
      obtain ⟨rfl, rfl⟩ := Prod.mk.inj h
      rw [if_pos ⟨rfl, rfl⟩]
  refine ⟨m, hm, by rw [← heq]; exact hnil, hbefore, by rw [← heq]; exact hs1, ?_, ?_⟩
  · rw [List.nodup_cons]
    refine ⟨?_, hp2⟩
    intro hmem
    have h1 := hp1 (1, 1) hmem
    have h2 := (hv0 1 1).mpr rfl
    simp only at h1
    rw [h2] at h1
    simp at h1
  · intro x y
    rw [hp3, hv0, List.mem_cons]

/-- Witness of C16 on the 5 by 5 grid with the random stream that is constantly 0: the
loop ends after 7 iterations, having pushed (1,3), (3,3), (3,1) after the start. -/
theorem carving_terminates_five_by_five :
    (3 : Int) ≤ 5 ∧
    ((carveStep (fun _ => 0) 5 5)^[7] (carveInit 0 (initializeMaze 5 5) 5 5)).pathStack = [] ∧
    carvePushes (fun _ => 0) 5 5 7 (carveInit 0 (initializeMaze 5 5) 5 5)
      = [(1, 3), (3, 3), (3, 1)] ∧
    ∃ m, m ≤ carveFuel 5 5 ∧
      ((carveStep (fun _ => 0) 5 5)^[m] (carveInit 0 (initializeMaze 5 5) 5 5)).pathStack = [] ∧
      ((1, 1) :: carvePushes (fun _ => 0) 5 5 m (carveInit 0 (initializeMaze 5 5) 5 5)).Nodup :=
  have h := carving_terminates_pushing_each_room_once (fun _ => 0) 0 5 5 (by decide) (by decide)
  ⟨by decide, by decide, by decide,
    h.elim fun m hm => ⟨m, hm.1, hm.2.1, hm.2.2.2.2.1⟩⟩

/-- C20: for every width and height of at least 3 and every random stream, in the grid
`generateMaze` returns on `initializeMaze width height` every room (both coordinates odd,
strictly inside the border) is not Wall and is joined to (1, 1) by a path of orthogonally
adjacent non-Wall cells; every border cell is as `initializeMaze` left it; and every cell
that was not Wall is still not Wall. -/
theorem rooms_reachable_border_kept_no_new_wall (rnd : Nat → Nat) (calls : Nat)
    (width height : Int) (hw : 3 ≤ width) (hh : 3 ≤ height) :
    ∃ g k, generateMaze rnd calls (initializeMaze width height) width height = .ok (g, k) ∧
      (∀ p, isRoom width height p → isFree g p ∧ Joined (isFree g) (1, 1) p) ∧
      (∀ x y, (x = 0 ∨ x = width - 1 ∨ y = 0 ∨ y = height - 1) →
        cellAt g x y = cellAt (initializeMaze width height) x y) ∧
      (∀ x y, isFree (initializeMaze width height) (x, y) → isFree g (x, y)) := by
  obtain ⟨s, hinv, hnil, hgen⟩ := generateMaze_ok rnd calls width height hw hh
  have hfin := cellAt_final width height s hinv hw hh
  have hfree : ∀ c : Pos, isOpen s.maze c →
      isFree (setCell (setCell s.maze 1 1 ' ') (width - 2) (height - 2) 'X') c := by
    intro c hc
    unfold isFree
    rw [hfin]
    split_ifs with hex
    · exact ⟨'X', rfl, by decide⟩
    · exact ⟨' ', hc, by decide⟩
  refine ⟨_, _, hgen, ?_, ?_, ?_⟩
  · intro p hp
    have hvis := carveInv_room_visited width height s hinv hnil p.1 p.2 hp
    obtain ⟨h1, h2, h3, h4, h5, h6⟩ := hp
    refine ⟨hfree p ?_, joined_mono hfree (hinv.reach p.1 p.2 hvis)⟩
    exact carveInv_odd_open width height s hinv p.1 p.2 (by omega) (by omega) h1 h2
  · intro x y hb
    have hne : ¬ (x = width - 2 ∧ y = height - 2) := by omega
    rw [hfin, if_neg hne]
    rcases hinv.cells x y with h | h
    · exact h
    · exfalso
      rcases h.2 with ⟨_, _, a, b⟩ | ⟨_, _, a, b⟩
      · obtain ⟨_, _, a1, a2, a3, a4⟩ := hinv.visRoom _ _ a
        obtain ⟨_, _, b1, b2, b3, b4⟩ := hinv.visRoom _ _ b
        simp only at a1 a2 a3 a4 b1 b2 b3 b4
        omega
      · obtain ⟨_, _, a1, a2, a3, a4⟩ := hinv.visRoom _ _ a
        obtain ⟨_, _, b1, b2, b3, b4⟩ := hinv.visRoom _ _ b
        simp only at a1 a2 a3 a4 b1 b2 b3 b4
        omega
  · intro x y hinit
    unfold isFree at hinit ⊢
    simp only at hinit ⊢
    rw [hfin]
    split_ifs with hex
    · exact ⟨'X', rfl, by decide⟩
    · rcases hinv.cells x y with h | h
      · rw [h]
        exact hinit
      · exact ⟨' ', h.1, by decide⟩

/-- Witness of C20 on the 5 by 5 grid with the random stream that is constantly 0. -/
theorem rooms_reachable_five_by_five :
    (3 : Int) ≤ 5 ∧
    ∃ g k, generateMaze (fun _ => 0) 0 (initializeMaze 5 5) 5 5 = .ok (g, k) ∧
      (∀ p, isRoom 5 5 p → isFree g p ∧ Joined (isFree g) (1, 1) p) ∧
      (∀ x y, (x = 0 ∨ x = 5 - 1 ∨ y = 0 ∨ y = 5 - 1) →
        cellAt g x y = cellAt (initializeMaze 5 5) x y) ∧
      (∀ x y, isFree (initializeMaze 5 5) (x, y) → isFree g (x, y)) :=
  ⟨by decide,
    rooms_reachable_border_kept_no_new_wall (fun _ => 0) 0 5 5 (by decide) (by decide)⟩

end MazeGame
